import Mathlib

/-!
Verification of the pymux terminal multiplexer core against its
specification.  The definitions below are shallow embeddings of the
Python sources:

* pymux/arrangement.py  (split tree, Window, Arrangement)
* pymux/screen.py       (BetterScreen)
* pymux/stream.py       (BetterStream parser)
* pymux/commands/commands.py (command handlers)

Machine integers are modelled as Int (Python integers are unbounded),
mutable dictionaries as functions, and in-place mutation as explicit
state passing.
-/

namespace Pymux

/- ================================================================
   Part 1: pymux/arrangement.py -- the split tree.

   A node of the layout tree is either a Pane (identified by its
   pane_id; the process and the copy-mode buffers play no role in the
   layout claims) or an HSplit/VSplit with an ordered list of weighted
   children (a Forest).  The source stores the weight of every child
   in a WeakKeyDictionary on the parent split, keyed by the child
   object and defaulting to 1; since every child object sits in
   exactly one slot of exactly one split, we keep the weight in the
   slot itself, with 1 written out where the source relies on the
   default.  vertical = true corresponds to VSplit.
   ================================================================ -/

mutual
inductive RNode where
  | pane (id : Nat)
  | split (vertical : Bool) (children : Forest)
deriving Repr, DecidableEq

inductive Forest where
  | nil
  | cons (weight : Int) (n : RNode) (tl : Forest)
deriving Repr, DecidableEq
end

/-- Number of children of a split (len(split)). -/
def Forest.length : Forest → Nat
  | .nil => 0
  | .cons _ _ tl => tl.length + 1

def Forest.append : Forest → Forest → Forest
  | .nil, t => t
  | .cons w n tl, t => .cons w n (tl.append t)

/- True when pane pid occurs somewhere in the subtree. -/
mutual
def RNode.hasPane (pid : Nat) : RNode → Bool
  | .pane i => i == pid
  | .split _ cs => hasPaneF pid cs

def hasPaneF (pid : Nat) : Forest → Bool
  | .nil => false
  | .cons _ n tl => n.hasPane pid || hasPaneF pid tl
end

/-- The pane ids of the direct pane children of a split. -/
def directPanes : Forest → List Nat
  | .nil => []
  | .cons _ (RNode.pane i) tl => i :: directPanes tl
  | .cons _ (RNode.split _ _) tl => directPanes tl

/- Window.panes: the source first lists all splits in preorder
(Window.splits) and then collects the direct pane children of each
split, so the panes of nested splits come after all direct panes of
the enclosing split. -/
mutual
def RNode.panes : RNode → List Nat
  | .pane _ => []
  | .split _ cs => directPanes cs ++ panesF cs

def panesF : Forest → List Nat
  | .nil => []
  | .cons _ (RNode.pane _) tl => panesF tl
  | .cons _ (RNode.split v cs) tl => (RNode.split v cs).panes ++ panesF tl
end

/- All panes of the subtree as a multiset, in plain structural order
(used for bookkeeping lemmas; equal to RNode.panes as a multiset). -/
mutual
def RNode.panesMS : RNode → Multiset Nat
  | .pane i => {i}
  | .split _ cs => panesMSF cs

def panesMSF : Forest → Multiset Nat
  | .nil => 0
  | .cons _ n tl => n.panesMS + panesMSF tl
end

/- All splits of the subtree, in preorder (Window.splits). -/
mutual
def RNode.allSplits : RNode → List RNode
  | .pane _ => []
  | .split v cs => .split v cs :: allSplitsF cs

def allSplitsF : Forest → List RNode
  | .nil => []
  | .cons _ n tl => n.allSplits ++ allSplitsF tl
end

/-- The number of direct children (len of the split; 0 for a pane). -/
def RNode.childCount : RNode → Nat
  | .pane _ => 0
  | .split _ cs => cs.length

/-- The splits of the subtree other than the root itself. -/
def properSplits : RNode → List RNode
  | .pane _ => []
  | .split _ cs => allSplitsF cs

/- ----------------------------------------------------------------
   Window (pymux/arrangement.py, class Window).

   The source draws fresh pane ids from the global counter
   Pane._pane_counter (starting at 1000, incremented before use); we
   keep the counter in the window, which is equivalent for operations
   on a single window.  index is the user visible window index used by
   the Arrangement.
   ---------------------------------------------------------------- -/

structure Window where
  index : Int
  windowId : Nat
  root : RNode
  activePane : Option Nat
  prevActivePane : Option Nat
  zoom : Bool
  nextPaneId : Nat
  previousSelectedLayout : Option String
deriving Repr, DecidableEq

/-- Window.__init__: the root is an empty HSplit. -/
def freshWindow (index : Int := 0) : Window :=
  { index := index
    windowId := 1001
    root := .split false .nil
    activePane := none
    prevActivePane := none
    zoom := false
    nextPaneId := 1000
    previousSelectedLayout := none }

/-- The active_pane property setter: remember the previous active pane
(when there is one), clear zoom, set the new active pane. -/
def Window.setActivePane (w : Window) (p : Nat) : Window :=
  { w with
    prevActivePane := match w.activePane with
      | some a => some a
      | none => w.prevActivePane
    zoom := false
    activePane := some p }

/-- The previous_active_pane property: the remembered pane, but only
when it still exists in the window (the source checks membership in
self.panes after dereferencing the weak reference). -/
def Window.previousActivePane (w : Window) : Option Nat :=
  match w.prevActivePane with
  | some p => if p ∈ w.root.panes then some p else none
  | none => none

/-- Insert (weight 1, pane nid) directly after the first occurrence of
pane aid in the children list (parent.insert(index + 1, pane)). -/
def insertAfterPane (aid nid : Nat) : Forest → Forest
  | .nil => .nil
  | .cons w (RNode.pane i) tl =>
      if i == aid then .cons w (RNode.pane i) (.cons 1 (RNode.pane nid) tl)
      else .cons w (RNode.pane i) (insertAfterPane aid nid tl)
  | .cons w (RNode.split v cs) tl =>
      .cons w (RNode.split v cs) (insertAfterPane aid nid tl)

/-- Replace the slot holding pane aid by a new split of the requested
direction containing [active, new]; the slot keeps its weight
(parent.weights[new_split] = parent.weights[self.active_pane]), and
the two panes get the default weight 1 inside the new split. -/
def wrapPane (aid nid : Nat) (vsplit : Bool) : Forest → Forest
  | .nil => .nil
  | .cons w (RNode.pane i) tl =>
      if i == aid then
        .cons w (RNode.split vsplit
          (.cons 1 (RNode.pane aid) (.cons 1 (RNode.pane nid) .nil))) tl
      else .cons w (RNode.pane i) (wrapPane aid nid vsplit tl)
  | .cons w (RNode.split v cs) tl =>
      .cons w (RNode.split v cs) (wrapPane aid nid vsplit tl)

/-- Is pane aid a direct child of this children list? -/
def directlyContains (aid : Nat) : Forest → Bool
  | .nil => false
  | .cons _ (RNode.pane i) tl => i == aid || directlyContains aid tl
  | .cons _ (RNode.split _ _) tl => directlyContains aid tl

/- Window.add_pane, the branch with an active pane: find the split
that directly contains the active pane (Window._get_parent); if its
direction equals the requested one, insert the new pane right after
the active one, otherwise wrap the active pane in a new split of the
requested direction.  The source finds the parent as the first split
in preorder containing the pane; when every pane occurs once (the
maintained invariant) this is the unique split that directly contains
it, which is what the recursion below locates. -/
mutual
def addInNode (aid nid : Nat) (vsplit : Bool) : RNode → RNode
  | .pane i => .pane i
  | .split v cs =>
      if directlyContains aid cs then
        if v == vsplit then .split v (insertAfterPane aid nid cs)
        else .split v (wrapPane aid nid vsplit cs)
      else .split v (addInF aid nid vsplit cs)

def addInF (aid nid : Nat) (vsplit : Bool) : Forest → Forest
  | .nil => .nil
  | .cons w n tl =>
      if n.hasPane aid then .cons w (addInNode aid nid vsplit n) tl
      else .cons w n (addInF aid nid vsplit tl)
end

/-- Window.add_pane.  A fresh pane id is drawn from the counter.  When
there is no active pane the new pane is appended to the root split;
otherwise it is inserted next to the active pane as above.  The new
pane becomes the active pane and zoom is cleared. -/
def Window.add_pane (w : Window) (vsplit : Bool) : Window :=
  let nid := w.nextPaneId + 1
  let root' :=
    match w.activePane with
    | none =>
        match w.root with
        | .split v cs => RNode.split v (cs.append (.cons 1 (RNode.pane nid) .nil))
        | .pane i => RNode.pane i
    | some aid => addInNode aid nid vsplit w.root
  ({ w with root := root', nextPaneId := nid }).setActivePane nid

/- The tree part of Window.remove_pane.  Remove the pane from its
parent split, then: while the parent became empty (and is not the
root) remove it from its own parent; while the parent has exactly one
child left (and is not the root) replace it in its own parent by that
child, with the slot keeping its weight
(p2.weights[p[0]] = p2.weights[p]).  The recursion performs exactly
these collapses: after rewriting the child on the path to the pane, an
empty child split is dropped from its parent and a one-child split is
replaced in its parent by its only child.  The root itself is never
collapsed. -/
mutual
def removePaneNode (pid : Nat) : RNode → RNode
  | .pane i => .pane i
  | .split v cs => .split v (removePaneF pid cs)

def removePaneF (pid : Nat) : Forest → Forest
  | .nil => .nil
  | .cons w (RNode.pane i) tl =>
      if i == pid then tl
      else .cons w (RNode.pane i) (removePaneF pid tl)
  | .cons w (RNode.split v cs) tl =>
      if hasPaneF pid cs then
        match removePaneF pid cs with
        | .nil => tl
        | .cons _ n1 .nil => .cons w n1 tl
        | cs' => .cons w (RNode.split v cs') tl
      else .cons w (RNode.split v cs) (removePaneF pid tl)
end

/-- Window.focus_next: move the active pane count steps forward in the
panes list, cyclically (Python modulo is non-negative; Int.emod agrees
for a positive modulus). -/
def Window.focus_next (w : Window) (count : Int) : Window :=
  let ps := w.root.panes
  match w.activePane with
  | none => w
  | some a =>
      if ps.length = 0 then w
      else
        let idx : Int := (ps.indexOf a : Nat)
        let k : Nat := ((idx + count) % (ps.length : Int)).toNat
        w.setActivePane (ps.getD k 0)

/-- Window.remove_pane.  Nothing happens when the pane is not in the
window.  When the removed pane is the active one the focus first moves
to the previous active pane when that still exists, else to the next
pane in order; then the pane is removed from the tree and the empty
and one-child ancestors are collapsed. -/
def Window.remove_pane (w : Window) (pid : Nat) : Window :=
  if pid ∈ w.root.panes then
    let w1 :=
      if w.activePane = some pid then
        match w.previousActivePane with
        | some q => w.setActivePane q
        | none => w.focus_next 1
      else w
    { w1 with root := removePaneNode pid w1.root }
  else w

/- ----------------------------------------------------------------
   Window.change_size_for_pane (resize-pane).

   handle_side(split_cls, is_before, amount) searches, starting from
   the parent of the pane and walking towards the root, for the first
   (deepest) split of the requested orientation in which the child on
   the path to the pane has a neighbour on the requested side; there
   it adds amount to the weight of that child, subtracts amount from
   the weight of the neighbour, and clamps every weight of that split
   to at least 1.  When no such split exists it retries once on the
   opposite side with the negated amount.

   hsNode returns the rewritten tree together with, when a split was
   found, the pre-update weights (child, neighbour) at the found spot.
   ---------------------------------------------------------------- -/

/-- Index of the first child whose subtree contains pane pid. -/
def findPathIdx (pid : Nat) : Forest → Option Nat
  | .nil => none
  | .cons _ n tl =>
      if n.hasPane pid then some 0
      else (findPathIdx pid tl).map (· + 1)

/-- The weight of the child at index i (default 1, as in the weights
dictionary). -/
def Forest.getW : Forest → Nat → Int
  | .nil, _ => 1
  | .cons w _ _, 0 => w
  | .cons _ _ tl, i + 1 => tl.getW i

/-- Add d to the weight of the child at index i. -/
def Forest.addW : Forest → Nat → Int → Forest
  | .nil, _, _ => .nil
  | .cons w n tl, 0, d => .cons (w + d) n tl
  | .cons w n tl, i + 1, d => .cons w n (tl.addW i d)

/-- Clamp every weight of the split to at least 1 (the source loops
over the stored weights and raises every value below 1 to 1). -/
def Forest.clamp1 : Forest → Forest
  | .nil => .nil
  | .cons w n tl => .cons (max 1 w) n (tl.clamp1)

/-- Weight update at a found split: add amt at index i, subtract amt
at the neighbour index j, then clamp every weight to at least 1. -/
def applyWeights (i j : Nat) (amt : Int) (cs : Forest) : Forest :=
  ((cs.addW i amt).addW j (-amt)).clamp1

mutual
def hsNode (vert isBefore : Bool) (amt : Int) (pid : Nat) :
    RNode → RNode × Option (Int × Int)
  | .pane i => (.pane i, none)
  | .split v cs =>
      match hsF vert isBefore amt pid cs with
      | some (cs', info) => (.split v cs', some info)
      | none =>
          match findPathIdx pid cs with
          | none => (.split v cs, none)
          | some i =>
              if v == vert &&
                 (if isBefore then decide (0 < i) else decide (i + 1 < cs.length)) then
                let j := if isBefore then i - 1 else i + 1
                (.split v (applyWeights i j amt cs), some (cs.getW i, cs.getW j))
              else (.split v cs, none)

/- Walk to the first child whose subtree holds the pane and recurse
into it; some means a deeper split applied the update. -/
def hsF (vert isBefore : Bool) (amt : Int) (pid : Nat) :
    Forest → Option (Forest × (Int × Int))
  | .nil => none
  | .cons w n tl =>
      if n.hasPane pid then
        match hsNode vert isBefore amt pid n with
        | (n', some info) => some (.cons w n' tl, info)
        | (_, none) => none
      else
        match hsF vert isBefore amt pid tl with
        | some (tl', info) => some (.cons w n tl', info)
        | none => none
end

/-- One handle_side call: nothing on amount 0 (if amount:), otherwise
apply at the found split, or retry the opposite side with the negated
amount when no split was found (trying_other_side). -/
def sideStep (vert isBefore : Bool) (amt : Int) (pid : Nat) (n : RNode) : RNode :=
  if amt = 0 then n
  else
    match hsNode vert isBefore amt pid n with
    | (n', some _) => n'
    | (_, none) => (hsNode vert (!isBefore) (-amt) pid n).1

/-- Window.change_size_for_pane: the four sides in source order
(left, right, up, down); VSplit (vertical) for left and right, HSplit
for up and down. -/
def changeSizeRoot (pid : Nat) (up right down left : Int) (n : RNode) : RNode :=
  sideStep false false down pid
    (sideStep false true up pid
      (sideStep true false right pid
        (sideStep true true left pid n)))

def Window.change_size_for_pane (w : Window) (pid : Nat)
    (up right down left : Int) : Window :=
  { w with root := changeSizeRoot pid up right down left w.root }

/-- Window.change_size_for_active_pane. -/
def Window.change_size_for_active_pane (w : Window)
    (up right down left : Int) : Window :=
  match w.activePane with
  | some pid => w.change_size_for_pane pid up right down left
  | none => w

/- Sum of all slot weights of all splits of the subtree. -/
mutual
def RNode.weightSum : RNode → Int
  | .pane _ => 0
  | .split _ cs => weightSumF cs

def weightSumF : Forest → Int
  | .nil => 0
  | .cons w n tl => w + n.weightSum + weightSumF tl
end

/- Every slot weight of every split of the subtree is at least 1. -/
mutual
def RNode.weightsGE1 : RNode → Bool
  | .pane _ => true
  | .split _ cs => weightsGE1F cs

def weightsGE1F : Forest → Bool
  | .nil => true
  | .cons w n tl => decide (1 ≤ w) && n.weightsGE1 && weightsGE1F tl
end

/-- The (up, right, down, left) tuple that exercises exactly one side:
left = (vertical, before), right = (vertical, after),
up = (horizontal, before), down = (horizontal, after). -/
def singleDir (vert isBefore : Bool) (amt : Int) : Int × Int × Int × Int :=
  match vert, isBefore with
  | true, true => (0, 0, 0, amt)
  | true, false => (0, amt, 0, 0)
  | false, true => (amt, 0, 0, 0)
  | false, false => (0, 0, amt, 0)

/- ----------------------------------------------------------------
   Structural well-formedness used by the invariant claims.
   ---------------------------------------------------------------- -/

/- Every split strictly below this node has at least two children
(the shape maintained by add_pane and remove_pane below the root). -/
mutual
def RNode.wfB : RNode → Bool
  | .pane _ => true
  | .split _ cs => decide (2 ≤ cs.length) && wfF cs

def wfF : Forest → Bool
  | .nil => true
  | .cons _ n tl => n.wfB && wfF tl
end

/-- The root may have any number of children; everything below it must
be well formed. -/
def rootWF : RNode → Bool
  | .pane _ => false
  | .split _ cs => wfF cs

/-- An add_pane or remove_pane step on a window (claim C5). -/
inductive WOp where
  | add (vsplit : Bool)
  | remove (pid : Nat)
deriving Repr

def execWOp (w : Window) : WOp → Window
  | .add v => w.add_pane v
  | .remove pid => w.remove_pane pid

def execWOps (w : Window) (ops : List WOp) : Window :=
  ops.foldl execWOp w

/- The inductive invariant maintained by add_pane / remove_pane as long
as the window is never emptied: the root is a split and every split
below it has at least two children; no pane id occurs twice; every
pane id (and the remembered previous pane) is at most the id counter;
the active pane is in the tree; the remembered previous pane differs
from the active one. -/
structure WInv (w : Window) : Prop where
  rootwf : rootWF w.root = true
  nodup : w.root.panesMS.Nodup
  fresh : ∀ p ∈ w.root.panesMS, p ≤ w.nextPaneId
  activeMem : ∀ a, w.activePane = some a → a ∈ w.root.panesMS
  prevNe : ∀ p a, w.prevActivePane = some p → w.activePane = some a → p ≠ a
  prevLe : ∀ p, w.prevActivePane = some p → p ≤ w.nextPaneId

/- ----------------------------------------------------------------
   Window.select_layout (pymux/arrangement.py) and the select-layout
   command handler (pymux/commands/commands.py).
   ---------------------------------------------------------------- -/

/-- LayoutTypes._ALL. -/
def layoutTypesALL : List String :=
  ["even-horizontal", "even-vertical", "main-horizontal", "main-vertical", "tiled"]

/-- A fresh split over the given panes; every weight is the default 1
(the new HSplit/VSplit starts with an empty weights dictionary). -/
def forestOfPanes : List Nat → Forest
  | [] => .nil
  | i :: tl => .cons 1 (.pane i) (forestOfPanes tl)

/-- Integer ceiling square root; math.ceil(len ** .5) of the source
(the float detour is exact for any realistic pane count). -/
def ceilSqrt (n : Nat) : Nat :=
  if Nat.sqrt n * Nat.sqrt n == n then Nat.sqrt n else Nat.sqrt n + 1

/-- The tiled loop: append each pane to the current row, closing the
row whenever it reaches column_count panes; a non-empty leftover row
is appended at the end. -/
def tiledRows (c : Nat) : List Nat → Forest → Forest
  | [], cur => if cur.length == 0 then .nil else .cons 1 (.split true cur) .nil
  | p :: tl, cur =>
      let cur' := cur.append (.cons 1 (.pane p) .nil)
      if c ≤ cur'.length then .cons 1 (.split true cur') (tiledRows c tl .nil)
      else tiledRows c tl cur'

/-- Window.select_layout: apply one of the predefined layout templates
and record it in previous_selected_layout.  A window with exactly one
pane always normalizes to even-horizontal.  The main-horizontal and
main-vertical templates read self.active_pane; the unreachable case of
no active pane (the source would place None in the child list) leaves
the root unchanged. -/
def Window.select_layout (w : Window) (layoutType : String) : Window :=
  let ps := w.root.panes
  let lt := if ps.length == 1 then "even-horizontal" else layoutType
  let root' :=
    if lt == "even-horizontal" then RNode.split false (forestOfPanes ps)
    else if lt == "even-vertical" then RNode.split true (forestOfPanes ps)
    else if lt == "main-horizontal" then
      match w.activePane with
      | some a =>
          RNode.split false (.cons 1 (.pane a)
            (.cons 1 (.split true (forestOfPanes (ps.filter (fun p => !(p == a))))) .nil))
      | none => w.root
    else if lt == "main-vertical" then
      match w.activePane with
      | some a =>
          RNode.split true (.cons 1 (.pane a)
            (.cons 1 (.split false (forestOfPanes (ps.filter (fun p => !(p == a))))) .nil))
      | none => w.root
    else if lt == "tiled" then
      RNode.split false (tiledRows (ceilSqrt ps.length) ps .nil)
    else w.root
  { w with root := root', previousSelectedLayout := some lt }

/-- An error escaping a command handler. -/
inductive PyError where
  | unboundLocalError
  | commandException (msg : String)
deriving Repr, DecidableEq

/-- The select-layout command handler (commands.py, select_layout).
The body of the try block is

    layout_type_obj: LayoutTypes = LayoutTypes(layout_type_obj)

whose right-hand side reads the local variable layout_type_obj before
its first assignment, so every execution raises UnboundLocalError;
that exception matches neither the except ValueError branch (which
would call window.select_layout) nor CommandException, so it escapes
the handler and the window is never touched. -/
def select_layout_command (layout_type : String) (w : Window) :
    Except PyError Window :=
  Except.error PyError.unboundLocalError

/- ----------------------------------------------------------------
   Arrangement (pymux/arrangement.py) and the move-window command
   (pymux/commands/commands.py).  Only the parts exercised by the
   claims: the sorted window list, get_window_by_index, move_window.
   The per client focus maps are reduced to the id of the active
   window of the calling client.
   ---------------------------------------------------------------- -/

structure Arrangement where
  windows : List Window
  baseIndex : Int
  activeWindowId : Nat
deriving Repr, DecidableEq

/-- Arrangement.get_window_by_index: the first window with the index,
None when there is none. -/
def Arrangement.get_window_by_index (arr : Arrangement) (i : Int) : Option Window :=
  arr.windows.find? (fun w => w.index == i)

/-- The active window of the calling client. -/
def Arrangement.get_active_window (arr : Arrangement) : Option Window :=
  arr.windows.find? (fun w => w.windowId == arr.activeWindowId)

/-- Arrangement.move_window: assign the new index to the window and
re-sort the window list by index (sorted is a stable sort, as is
List.mergeSort). -/
def Arrangement.move_window (arr : Arrangement) (wid : Nat) (newIndex : Int) :
    Arrangement :=
  let ws := arr.windows.map
    (fun w => if w.windowId == wid then { w with index := newIndex } else w)
  { arr with windows := ws.mergeSort (fun a b => decide (a.index ≤ b.index)) }

/-- The move-window command handler (commands.py, move_window), after
the integer parse of the -t argument: when the destination index is
already taken a CommandException is raised (shown to the user; the
arrangement is not touched), otherwise the active window is moved.
The message string is abridged. -/
def move_window_command (arr : Arrangement) (newIndex : Int) :
    Except PyError Arrangement :=
  if (arr.get_window_by_index newIndex).isSome then
    Except.error (PyError.commandException "index in use")
  else
    match arr.get_active_window with
    | some w => Except.ok (arr.move_window w.windowId newIndex)
    | none => Except.error (PyError.commandException "no active window")

/- ================================================================
   Part 2: pymux/screen.py -- BetterScreen.

   Coordinates, dimensions and mode codes are Int (Python integers).
   The sparse defaultdict-of-defaultdict data buffer is modelled as a
   total function from row index to rows; a row keeps its own default
   cell (the default_factory of the inner defaultdict), so that
   deleting a key and reading it back yields the right default.  Rows
   that were never created behave exactly like freshly created ones,
   so the created-on-read behaviour of defaultdict needs no modelling.
   Colors are kept symbolic (an injective image of the color strings
   built by the source); none of the claims inspects the text of a
   color.
   ================================================================ -/

/-- A color value as produced by select_graphic_rendition: an entry of
the ANSI color name tables, an entry of the 256 color palette
(the _256_colors dictionary), or a true color. -/
inductive ColorV where
  | ansi (code : Int)
  | palette (idx : Int)
  | rgb (r g b : Int)
deriving Repr, DecidableEq

/-- prompt_toolkit Attrs, the pending text attributes. -/
structure Attrs where
  color : Option ColorV
  bgcolor : Option ColorV
  bold : Bool
  underline : Bool
  italic : Bool
  blink : Bool
  reverse : Bool
deriving Repr, DecidableEq

def defaultAttrs : Attrs :=
  { color := none, bgcolor := none, bold := false, underline := false,
    italic := false, blink := false, reverse := false }

/-- A cell token: DEFAULT_TOKEN style tokens are ('C',) + attrs; the
rows written by erase_in_display carry the bare default Token of
Char(' '). -/
inductive Tok where
  | c (a : Attrs)
  | plain
deriving Repr, DecidableEq

/-- One screen cell: the grapheme string (code points; several after a
zero width merge) and its token. -/
structure Cell where
  s : List Int
  token : Tok
deriving Repr, DecidableEq

/-- Char(' ', DEFAULT_TOKEN), the default_char of the pt screen. -/
def defaultChar : Cell := { s := [32], token := .c defaultAttrs }

/-- Char(' ') with the bare Token (used by erase_in_display). -/
def plainSpace : Cell := { s := [32], token := .plain }

/-- A row: the inner defaultdict from column to Cell, as its default
cell plus the cell function. -/
structure PRow where
  dflt : Cell
  cells : Int → Cell

/-- A freshly created row of the outer data buffer. -/
def defaultRow : PRow := { dflt := defaultChar, cells := fun _ => defaultChar }

/-- A row as written by erase_in_display: defaultdict(lambda: Char(' ')). -/
def plainRow : PRow := { dflt := plainSpace, cells := fun _ => plainSpace }

def PRow.set (r : PRow) (x : Int) (c : Cell) : PRow :=
  { r with cells := fun i => if i = x then c else r.cells i }

/-- del line[x]: reading the key again yields the row default. -/
def PRow.del (r : PRow) (x : Int) : PRow := r.set x r.dflt

def DataBuffer : Type := Int → PRow

def DataBuffer.set (db : DataBuffer) (y : Int) (r : PRow) : DataBuffer :=
  fun i => if i = y then r else db i

/-- data_buffer.pop(y): the next read recreates the default row. -/
def DataBuffer.pop (db : DataBuffer) (y : Int) : DataBuffer :=
  db.set y defaultRow

/-- pyte character set identifiers (cs.MAPS keys B, 0, U, K).
Modelled from the spec: the pyte charset tables are an external
dependency of the source; LAT1 is the identity on code points and the
VT100 special graphics map sends 0x5f..0x7e to box drawing and symbol
characters (all of width 1).  The auxiliary IBMPC and UK maps are kept
abstract as identity maps apart from the UK pound sign. -/
inductive CharsetId where
  | lat1
  | vt100
  | ibmpc
  | uk
deriving Repr, DecidableEq

def translateChar : CharsetId → Int → Int
  | .lat1, ch => ch
  | .vt100, ch => if 0x5f ≤ ch ∧ ch ≤ 0x7e then 0x2500 + (ch - 0x5f) else ch
  | .ibmpc, ch => ch
  | .uk, ch => if ch = 35 then 0xa3 else ch

/-- Column width of a code point (wcwidth): zero for combining marks,
two for the east asian wide ranges, one otherwise. -/
def charWidth (ch : Int) : Int :=
  if 0x300 ≤ ch ∧ ch ≤ 0x36f then 0
  else if (0x1100 ≤ ch ∧ ch ≤ 0x115f) ∨ (0x2e80 ≤ ch ∧ ch ≤ 0x303e) ∨
          (0x3041 ≤ ch ∧ ch ≤ 0x4dbf) ∨ (0x4e00 ≤ ch ∧ ch ≤ 0x9fff) ∨
          (0xac00 ≤ ch ∧ ch ≤ 0xd7a3) ∨ (0xf900 ≤ ch ∧ ch ≤ 0xfaff) ∨
          (0xff00 ≤ ch ∧ ch ≤ 0xff60) then 2
  else 1

/- pyte mode constants: private DEC modes are stored pre-shifted by
five bits in pyte.modes. -/
def mLNM : Int := 20
def mIRM : Int := 4
def mDECCOLM : Int := 3 * 32
def mDECSCNM : Int := 5 * 32
def mDECOM : Int := 6 * 32
def mDECAWM : Int := 7 * 32
def mDECTCEM : Int := 25 * 32
/-- 1049 << 5, the shifted alternate screen code. -/
def mALT : Int := 1049 * 32

/-- A DECSC savepoint (the custom _Savepoint with attrs). -/
structure Savepoint where
  cursorX : Int
  cursorY : Int
  g0 : CharsetId
  g1 : CharsetId
  charset : Int
  origin : Bool
  wrap : Bool
  attrs : Attrs

/-- The state backed up on entering the alternate screen.  The source
stores self.pt_screen together with a dict holding the swap variables;
mode and tabstops are stored as references to the live set objects, so
they are not part of the backup here: in place mutations of those sets
reach the backup, and the restore loop writes the same object back.
The only operation that rebinds self.tabstops is clear_tab_stop(3); at
that point the backup silently keeps the old set object, modelled by
filling tabstopsSnapshot. -/
structure AltBackup where
  margins : Option (Int × Int)
  charset : Int
  g0 : CharsetId
  g1 : CharsetId
  dataBuffer : DataBuffer
  cursorX : Int
  cursorY : Int
  showCursor : Bool
  maxY : Int
  tabstopsSnapshot : Option (Finset Int)

/-- BetterScreen.  write_process_input is modelled by the outputs
list, bell_func by the bells counter, get_history_limit by the
historyLimit field. -/
structure BScreen where
  lines : Int
  columns : Int
  mode : Finset Int
  title : List Int
  iconName : List Int
  charset : Int
  g0 : CharsetId
  g1 : CharsetId
  tabstops : Finset Int
  margins : Option (Int × Int)
  dataBuffer : DataBuffer
  cursorX : Int
  cursorY : Int
  showCursor : Bool
  maxY : Int
  attrs : Attrs
  savepoints : List Savepoint
  original : Option AltBackup
  historyCounter : Int
  historyLimit : Int
  outputs : List String
  bells : Nat

/-- The tab stops set on reset: every eighth column up to 1000. -/
def initialTabstops : Finset Int :=
  (Finset.range 124).image (fun k => ((8 * (k + 1) : Nat) : Int))

/-- BetterScreen.__init__ followed by reset(). -/
def mkScreen (lines columns : Int) (historyLimit : Int := 2000) : BScreen :=
  { lines := lines
    columns := columns
    mode := {mDECAWM, mDECTCEM}
    title := []
    iconName := []
    charset := 0
    g0 := .lat1
    g1 := .vt100
    tabstops := initialTabstops
    margins := none
    dataBuffer := fun _ => defaultRow
    cursorX := 0
    cursorY := 0
    showCursor := true
    maxY := 0
    attrs := defaultAttrs
    savepoints := []
    original := none
    historyCounter := 0
    historyLimit := historyLimit
    outputs := []
    bells := 0 }

/-- BetterScreen._reset_screen: a fresh pt screen (buffer, cursor,
show_cursor, pending attrs), margins cleared, max_y zeroed. -/
def BScreen.resetScreen (s : BScreen) : BScreen :=
  { s with
    dataBuffer := fun _ => defaultRow
    cursorX := 0
    cursorY := 0
    showCursor := true
    attrs := defaultAttrs
    margins := none
    maxY := 0 }

/-- The line_offset property. -/
def BScreen.lineOffset (s : BScreen) : Int :=
  max 0 (min s.cursorY (s.maxY - s.lines + 1))

/-- Python (n or d) for a non-negative integer argument where an
absent argument is passed as 0. -/
def orDefault (n d : Int) : Int := if n = 0 then d else n

/-- ensure_bounds.  The source computes the bounds as margins when
(margins and use_margins) or DECOM is set; with DECOM set and no
margins the source would fail to unpack None (never reached by the
modelled flows), and the full window bounds are used here. -/
def BScreen.ensure_bounds (s : BScreen) (useMargins : Bool := false) : BScreen :=
  let (top, bottom) :=
    match s.margins with
    | some (t, b) => if useMargins ∨ mDECOM ∈ s.mode then (t, b) else (0, s.lines - 1)
    | none => (0, s.lines - 1)
  let off := s.lineOffset
  { s with
    cursorX := min (max 0 s.cursorX) (s.columns - 1)
    cursorY := min (max (top + off) s.cursorY) (bottom + off + 1) }

def BScreen.carriage_return (s : BScreen) : BScreen := { s with cursorX := 0 }

/-- _remove_old_lines_from_history: drop rows above cursor minus the
history limit. -/
def BScreen.removeOldLines (s : BScreen) : BScreen :=
  let removeAbove := max 0 (s.cursorY - s.historyLimit)
  { s with dataBuffer := fun r => if r < removeAbove then defaultRow else s.dataBuffer r }

/-- clear_history: drop all rows above the visible window. -/
def BScreen.clear_history (s : BScreen) : BScreen :=
  { s with dataBuffer := fun r => if r < s.lineOffset then defaultRow else s.dataBuffer r }

/-- The ascending integer interval [a, b). -/
def intRange (a b : Int) : List Int :=
  (List.range (b - a).toNat).map (fun k => a + (k : Int))

/-- cursor_down: stop at the bottom margin; reads line_offset before
moving. -/
def BScreen.cursor_down (s : BScreen) (count : Int) : BScreen :=
  let bottom := (s.margins.getD (0, s.lines - 1)).2
  let y := min (s.cursorY + orDefault count 1) (bottom + s.lineOffset + 1)
  { s with cursorY := y, maxY := max s.maxY y }

def BScreen.cursor_up (s : BScreen) (count : Int) : BScreen :=
  ({ s with cursorY := s.cursorY - orDefault count 1 }).ensure_bounds true

def BScreen.cursor_back (s : BScreen) (count : Int) : BScreen :=
  ({ s with cursorX := max 0 (s.cursorX - orDefault count 1) }).ensure_bounds

def BScreen.cursor_forward (s : BScreen) (count : Int) : BScreen :=
  ({ s with cursorX := s.cursorX + orDefault count 1 }).ensure_bounds

def BScreen.backspace (s : BScreen) : BScreen := s.cursor_back 0

/-- index: below the margins scroll the region up in place; over the
full screen just move down, keep max_y, and prune history once every
hundred calls. -/
def BScreen.index (s : BScreen) : BScreen :=
  match s.margins with
  | none =>
      let s1 := { s with cursorY := s.cursorY + 1 }
      let s2 := { s1 with maxY := max s1.maxY s1.cursorY }
      let s3 := { s2 with historyCounter := s2.historyCounter + 1 }
      if s3.historyCounter = 100 then
        { s3.removeOldLines with historyCounter := 0 }
      else s3
  | some (top, bottom) =>
      let off := s.lineOffset
      if s.cursorY - off = bottom then
        (intRange top bottom).foldl
          (fun t line =>
            let db := DataBuffer.pop
              (DataBuffer.set t.dataBuffer (line + off) (t.dataBuffer (line + off + 1)))
              (line + off + 1)
            { t with dataBuffer := db })
          s
      else s.cursor_down 0

def BScreen.linefeed (s : BScreen) : BScreen :=
  let s1 := s.index
  if mLNM ∈ s1.mode then s1.carriage_return else s1

def BScreen.next_line (s : BScreen) : BScreen :=
  s.index.carriage_return.ensure_bounds

/-- reverse_index: above the top margin scroll the region down in
place, else move the cursor up. -/
def BScreen.reverse_index (s : BScreen) : BScreen :=
  let (top, bottom) := s.margins.getD (0, s.lines - 1)
  let off := s.lineOffset
  if s.cursorY - off = top then
    ((intRange top bottom).reverse).foldl
      (fun t i =>
        let db := DataBuffer.pop
          (DataBuffer.set t.dataBuffer (i + off + 1) (t.dataBuffer (i + off)))
          (i + off)
        { t with dataBuffer := db })
      s
  else s.cursor_up 0

/-- tab: the next tab stop right of the cursor, else the last column. -/
def BScreen.tab (s : BScreen) : BScreen :=
  let column :=
    match (s.tabstops.filter (fun t => s.cursorX < t)).min with
    | some c => c
    | none => s.columns - 1
  { s with cursorX := column }

/-- cursor_position (CSI H): one based arguments (0 meaning default);
with DECOM the line is relative to the top margin and may not leave
the scrolling region. -/
def BScreen.cursor_position (s : BScreen) (line column : Int) : BScreen :=
  let column' := orDefault column 1 - 1
  let line' := orDefault line 1 - 1
  match s.margins with
  | some (t, b) =>
      if mDECOM ∈ s.mode then
        let line'' := line' + t
        if ¬ (t ≤ line'' ∧ line'' ≤ b) then s
        else
          ({ s with cursorX := column', cursorY := line'' + s.lineOffset }).ensure_bounds
      else
        ({ s with cursorX := column', cursorY := line' + s.lineOffset }).ensure_bounds
  | none =>
      ({ s with cursorX := column', cursorY := line' + s.lineOffset }).ensure_bounds

def BScreen.cursor_to_column (s : BScreen) (column : Int) : BScreen :=
  ({ s with cursorX := orDefault column 1 - 1 }).ensure_bounds

def BScreen.cursor_to_line (s : BScreen) (line : Int) : BScreen :=
  let s1 := { s with cursorY := orDefault line 1 - 1 + s.lineOffset }
  let s2 :=
    match s1.margins with
    | some (t, _) => if mDECOM ∈ s1.mode then { s1 with cursorY := s1.cursorY + t } else s1
    | none => s1
  s2.ensure_bounds

/-- set_margins (DECSTBM): one based arguments, clamped to the window,
ignored when the region would have fewer than two lines; on success
the cursor moves home. -/
def BScreen.set_margins (s : BScreen) (top bottom : Option Int) : BScreen :=
  if top = none ∧ bottom = none then s
  else
    let cur := s.margins.getD (0, s.lines - 1)
    let t0 := match top with | none => cur.1 | some t => t - 1
    let b0 := match bottom with | none => cur.2 | some b => b - 1
    let t1 := max 0 (min t0 (s.lines - 1))
    let b1 := max 0 (min b0 (s.lines - 1))
    if 1 ≤ b1 - t1 then
      ({ s with margins := some (t1, b1) }).cursor_position 0 0
    else s

/-- The keys of pyte cs.MAPS: B (latin 1), 0 (VT100 graphics),
U (IBMPC), K (UK). -/
def charsetOfCode (code : Int) : Option CharsetId :=
  if code = 66 then some .lat1
  else if code = 48 then some .vt100
  else if code = 85 then some .ibmpc
  else if code = 75 then some .uk
  else none

/-- set_charset(code, mode): mode is the character after ESC,
40 for ( selecting G0 and 41 for ) selecting G1. -/
def BScreen.set_charset (s : BScreen) (code : Int) (mode : Int) : BScreen :=
  match charsetOfCode code with
  | none => s
  | some cm =>
      if mode = 40 then { s with g0 := cm }
      else if mode = 41 then { s with g1 := cm }
      else s

def BScreen.shift_in (s : BScreen) : BScreen := { s with charset := 0 }

def BScreen.shift_out (s : BScreen) : BScreen := { s with charset := 1 }

/-- insert_characters: shift the cells at and right of the cursor
right by count; the vacated columns read as the row default.  The
source iterates from the highest stored column down to the cursor,
copying and deleting; on a row with no stored cells it does nothing,
which coincides with this pointwise description. -/
def BScreen.insert_characters (s : BScreen) (count : Int) : BScreen :=
  let count := orDefault count 1
  let x := s.cursorX
  let row := s.dataBuffer s.cursorY
  let row' : PRow :=
    { row with cells := fun i =>
        if i < x then row.cells i
        else if i < x + count then row.dflt
        else row.cells (i - count) }
  { s with dataBuffer := DataBuffer.set s.dataBuffer s.cursorY row' }

/-- delete_characters: shift the cells right of the cursor left by
count (the tail reads as the row default). -/
def BScreen.delete_characters (s : BScreen) (count : Int) : BScreen :=
  let count := orDefault count 1
  let x := s.cursorX
  let row := s.dataBuffer s.cursorY
  let row' : PRow :=
    { row with cells := fun i =>
        if i < x then row.cells i else row.cells (i + count) }
  { s with dataBuffer := DataBuffer.set s.dataBuffer s.cursorY row' }

/-- erase_characters: replace count cells starting at the cursor (and
clipped to the window) by blanks that keep their token. -/
def BScreen.erase_characters (s : BScreen) (count : Int) : BScreen :=
  let count := orDefault count 1
  let x := s.cursorX
  let row := s.dataBuffer s.cursorY
  let row' : PRow :=
    { row with cells := fun i =>
        if x ≤ i ∧ i < min (x + count) s.columns then
          { s := [32], token := (row.cells i).token }
        else row.cells i }
  { s with dataBuffer := DataBuffer.set s.dataBuffer s.cursorY row' }

/-- erase_in_line: mode 0 from the cursor to the end of the line,
mode 1 from the beginning to the cursor, mode 2 drops the whole row.
Deleted keys read as the respective defaults again. -/
def BScreen.erase_in_line (s : BScreen) (type_of : Int) : BScreen :=
  if type_of = 2 then
    { s with dataBuffer := DataBuffer.pop s.dataBuffer s.cursorY }
  else
    let x := s.cursorX
    let row := s.dataBuffer s.cursorY
    let keep (i : Int) : Bool :=
      if type_of = 0 then decide (i < x)
      else if type_of = 1 then decide (x < i)
      else true
    let row' : PRow :=
      { row with cells := fun i => if keep i then row.cells i else row.dflt }
    { s with dataBuffer := DataBuffer.set s.dataBuffer s.cursorY row' }

/-- erase_in_display: modes 0, 1 and 2 overwrite whole visible rows
with fresh rows of plain blanks (then modes 0 and 1 also erase within
the cursor row); mode 3 clears the whole buffer and homes cursor and
max_y; any other mode hits the IndexError of the interval table and
returns. -/
def BScreen.erase_in_display (s : BScreen) (type_of : Int) : BScreen :=
  if type_of = 3 then
    { s with dataBuffer := fun _ => defaultRow, cursorY := 0, maxY := 0 }
  else if type_of = 0 ∨ type_of = 1 ∨ type_of = 2 then
    let off := s.lineOffset
    let interval :=
      if type_of = 0 then intRange (s.cursorY + 1) (off + s.lines)
      else if type_of = 1 then intRange off s.cursorY
      else intRange off (off + s.lines)
    let s1 := interval.foldl
      (fun t line => { t with dataBuffer := DataBuffer.set t.dataBuffer line plainRow }) s
    if type_of = 0 ∨ type_of = 1 then s1.erase_in_line type_of else s1
  else s

def BScreen.set_tab_stop (s : BScreen) : BScreen :=
  { s with tabstops := insert s.cursorX s.tabstops }

/-- clear_tab_stop: 0 (or absent) discards the stop at the cursor;
3 rebinds self.tabstops to a fresh empty set.  The rebinding is the
one operation that breaks the aliasing between the live tab stops and
an alternate screen backup, so the backup keeps the old set. -/
def BScreen.clear_tab_stop (s : BScreen) (type_of : Int) : BScreen :=
  if type_of = 0 then { s with tabstops := s.tabstops.erase s.cursorX }
  else if type_of = 3 then
    let original' :=
      match s.original with
      | some b =>
          some (if b.tabstopsSnapshot.isNone
                then { b with tabstopsSnapshot := some s.tabstops } else b)
      | none => none
    { s with tabstops := ∅, original := original' }
  else s

/-- resize: update the dimensions, re-home the margins, and cap max_y
so the cursor cannot end below the visible window after a shrink. -/
def BScreen.resize (s : BScreen) (lines columns : Option Int) : BScreen :=
  let l := lines.getD s.lines
  let c := columns.getD s.columns
  if s.lines ≠ l ∨ s.columns ≠ c then
    { s with lines := l, columns := c, margins := none,
             maxY := min s.maxY (s.cursorY + l - 1) }
  else s

/-- set_mode: private codes are shifted by five bits; then the DECCOLM,
DECOM, DECTCEM and 1049 side effects in source order.  Entering the
alternate screen backs up the swap variables (mode and tabstops stay
aliased to the live sets, see AltBackup) and resets the screen. -/
def BScreen.set_mode (s : BScreen) (modes : List Int) (priv : Bool) : BScreen :=
  let ms := if priv then modes.map (· * 32) else modes
  let s := { s with mode := s.mode ∪ ms.toFinset }
  let s := if mDECCOLM ∈ ms then
      (((s.resize none (some 132)).erase_in_display 2).cursor_position 0 0)
    else s
  let s := if mDECOM ∈ ms then s.cursor_position 0 0 else s
  let s := if mDECTCEM ∈ ms then { s with showCursor := true } else s
  if mALT ∈ ms then
    let b : AltBackup :=
      { margins := s.margins
        charset := s.charset
        g0 := s.g0
        g1 := s.g1
        dataBuffer := s.dataBuffer
        cursorX := s.cursorX
        cursorY := s.cursorY
        showCursor := s.showCursor
        maxY := s.maxY
        tabstopsSnapshot := none }
    ({ s with original := some b }).resetScreen
  else s

/-- reset_mode: the mirror image of set_mode.  Leaving the alternate
screen restores the backed up swap variables; mode and tabstops are
restored through the live aliases (so in place mutations made while on
the alternate screen survive, and the alternate screen flag removed
just above stays removed), and _reset_offset_and_margins clears the
margins right after the restore. -/
def BScreen.reset_mode (s : BScreen) (modes : List Int) (priv : Bool) : BScreen :=
  let ms := if priv then modes.map (· * 32) else modes
  let s := { s with mode := s.mode \ ms.toFinset }
  let s := if mDECCOLM ∈ ms then
      (((s.resize none (some 80)).erase_in_display 2).cursor_position 0 0)
    else s
  let s := if mDECOM ∈ ms then s.cursor_position 0 0 else s
  let s := if mDECTCEM ∈ ms then { s with showCursor := false } else s
  if mALT ∈ ms then
    match s.original with
    | some b =>
        { s with
          margins := none
          charset := b.charset
          g0 := b.g0
          g1 := b.g1
          tabstops := b.tabstopsSnapshot.getD s.tabstops
          dataBuffer := b.dataBuffer
          cursorX := b.cursorX
          cursorY := b.cursorY
          showCursor := b.showCursor
          maxY := b.maxY
          original := none }
    | none => s
  else s

/-- save_cursor (DECSC). -/
def BScreen.save_cursor (s : BScreen) : BScreen :=
  { s with savepoints := s.savepoints ++
      [{ cursorX := s.cursorX
         cursorY := s.cursorY
         g0 := s.g0
         g1 := s.g1
         charset := s.charset
         origin := mDECOM ∈ s.mode
         wrap := mDECAWM ∈ s.mode
         attrs := s.attrs }] }

/-- restore_cursor (DECRC): pop the newest savepoint; with an empty
stack reset origin mode and home the cursor. -/
def BScreen.restore_cursor (s : BScreen) : BScreen :=
  match s.savepoints.getLast? with
  | some sp =>
      let s := { s with savepoints := s.savepoints.dropLast,
                        g0 := sp.g0, g1 := sp.g1, charset := sp.charset,
                        attrs := sp.attrs }
      let s := if sp.origin then s.set_mode [mDECOM] false else s
      let s := if sp.wrap then s.set_mode [mDECAWM] false else s
      ({ s with cursorX := sp.cursorX, cursorY := sp.cursorY }).ensure_bounds true
  | none => (s.reset_mode [mDECOM] false).cursor_position 0 0

/- ----------------------------------------------------------------
   draw.
   ---------------------------------------------------------------- -/

/-- Translate one code point through the active character set. -/
def BScreen.translate (s : BScreen) (ch : Int) : Int :=
  if s.charset ≠ 0 then translateChar s.g1 ch else translateChar s.g0 ch

/-- The body of one draw loop iteration after the wrap handling, at
the local cursor position (x, y): shift on insert mode, write the cell
(with a filler cell after a wide character, or merging a zero width
character into the previous cell), advance the local column.  The
insert mode shift goes through insert_characters, which reads the
screen cursor FIELDS, not the locals: during a run the field cursorX
still holds the column from before the draw call (or 0 after a wrap),
so the shift happens at that stale position while the cell write uses
the local x.  The source reads in_irm once before its loop, but no
loop operation changes the mode set, so testing it per character is
the same. -/
def drawCore (s : BScreen) (x y ch w : Int) : BScreen × Int × Int :=
  let s := if mIRM ∈ s.mode then s.insert_characters (max 0 w) else s
  let row := s.dataBuffer y
  let tok := Tok.c s.attrs
  let row' :=
    if w = 1 then row.set x { s := [ch], token := tok }
    else if 1 < w then
      (row.set x { s := [ch], token := tok }).set (x + 1)
        { s := [], token := tok }
    else
      let prev := row.cells (x - 1)
      row.set (x - 1) { s := prev.s ++ [ch], token := prev.token }
  ({ s with dataBuffer := DataBuffer.set s.dataBuffer y row' }, x + max 0 w, y)

/-- One iteration of the draw loop over the state (screen, x, y).  The
source keeps cursor_position_x and cursor_position_y in LOCAL
variables and assigns the cursor field only once after the whole run,
so x and y are threaded explicitly here.  At the right edge with
autowrap the wrap goes through carriage_return and linefeed (which do
update the cursor fields) and the locals are refreshed from the
fields; without autowrap only the local column is pulled back. -/
def BScreen.drawChar : BScreen × Int × Int → Int → BScreen × Int × Int
  | (s, x, y), ch =>
    let w := charWidth ch
    if s.columns ≤ x then
      if mDECAWM ∈ s.mode then
        let s1 := s.carriage_return.linefeed
        drawCore s1 s1.cursorX s1.cursorY ch w
      else drawCore s (x - max 0 w) y ch w
    else drawCore s x y ch w

/-- draw: translate the run with the active charset, write each code
point at the local cursor carried through the loop, then raise max_y
to the final local row and write the final local column back into the
cursor field (the row field was already updated by any wraps). -/
def BScreen.draw (s : BScreen) (chars : List Int) : BScreen :=
  let r := (chars.map s.translate).foldl BScreen.drawChar (s, s.cursorX, s.cursorY)
  let s1 := r.1
  let s2 := if s1.maxY < r.2.2 then { s1 with maxY := r.2.2 } else s1
  { s2 with cursorX := r.2.1 }

/- ----------------------------------------------------------------
   select_graphic_rendition.
   ---------------------------------------------------------------- -/

/-- The keys of the inverted FG_ANSI_COLORS table of prompt_toolkit
(16 named colors plus the default color 39). -/
def isFgColorCode (a : Int) : Bool :=
  decide ((30 ≤ a ∧ a ≤ 37) ∨ a = 39 ∨ (90 ≤ a ∧ a ≤ 97))

/-- The keys of the inverted BG_ANSI_COLORS table. -/
def isBgColorCode (a : Int) : Bool :=
  decide ((40 ≤ a ∧ a ≤ 47) ∨ a = 49 ∨ (100 ≤ a ∧ a ≤ 107))

/-- _256_colors.get(1024 + m): a palette color inside the table,
None outside it. -/
def palette256 (m : Int) : Option ColorV :=
  if 0 ≤ m ∧ m < 256 then some (.palette m) else none

/-- The pending **replace keyword dictionary of
select_graphic_rendition; an outer none means the key is absent. -/
structure Replace where
  color : Option (Option ColorV) := none
  bgcolor : Option (Option ColorV) := none
  bold : Option Bool := none
  italic : Option Bool := none
  underline : Option Bool := none
  blink : Option Bool := none
  reverse : Option Bool := none
deriving Repr, DecidableEq

def emptyReplace : Replace := {}

/-- attrs._replace(**replace). -/
def applyReplace (r : Replace) (a : Attrs) : Attrs :=
  { color := r.color.getD a.color
    bgcolor := r.bgcolor.getD a.bgcolor
    bold := r.bold.getD a.bold
    italic := r.italic.getD a.italic
    underline := r.underline.getD a.underline
    blink := r.blink.getD a.blink
    reverse := r.reverse.getD a.reverse }

/-- The attribute loop of select_graphic_rendition.  The attrs list is
popped front to back; 38/48 consume extra arguments and an exhausted
pop raises IndexError (only the true color branch catches it, by
consuming whatever is left).  attr 0 resets _attrs at once and clears
the pending replace dictionary. -/
def sgrLoop : List Int → Replace → Attrs → Except Unit (Replace × Attrs)
  | [], rep, a => .ok (rep, a)
  | attr :: rest, rep, a =>
      if isFgColorCode attr then
        sgrLoop rest { rep with color := some (some (.ansi attr)) } a
      else if isBgColorCode attr then
        sgrLoop rest { rep with bgcolor := some (some (.ansi attr)) } a
      else if attr = 1 then sgrLoop rest { rep with bold := some true } a
      else if attr = 3 then sgrLoop rest { rep with italic := some true } a
      else if attr = 4 then sgrLoop rest { rep with underline := some true } a
      else if attr = 5 then sgrLoop rest { rep with blink := some true } a
      else if attr = 6 then sgrLoop rest { rep with blink := some true } a
      else if attr = 7 then sgrLoop rest { rep with reverse := some true } a
      else if attr = 22 then sgrLoop rest { rep with bold := some false } a
      else if attr = 23 then sgrLoop rest { rep with italic := some false } a
      else if attr = 24 then sgrLoop rest { rep with underline := some false } a
      else if attr = 25 then sgrLoop rest { rep with blink := some false } a
      else if attr = 27 then sgrLoop rest { rep with reverse := some false } a
      else if attr = 0 then sgrLoop rest emptyReplace defaultAttrs
      else if attr = 38 ∨ attr = 48 then
        match rest with
        | [] => .error ()
        | n :: rest2 =>
            if n = 5 then
              match rest2 with
              | [] => .error ()
              | m :: rest3 =>
                  if attr = 38 then
                    sgrLoop rest3 { rep with color := some (palette256 m) } a
                  else
                    sgrLoop rest3 { rep with bgcolor := some (palette256 m) } a
            else if n = 2 then
              match rest2 with
              | r :: g :: b :: rest3 =>
                  if attr = 38 then
                    sgrLoop rest3 { rep with color := some (some (.rgb r g b)) } a
                  else
                    sgrLoop rest3 { rep with bgcolor := some (some (.rgb r g b)) } a
              | _ =>
                  -- fewer than three arguments left: the pops drain the
                  -- list and the IndexError is caught, ending the loop
                  -- with the current replace dictionary and attrs
                  .ok (rep, a)
            else sgrLoop rest2 rep a
      else sgrLoop rest rep a

/-- select_graphic_rendition: an empty argument list is replaced by
[0]; at the end _attrs = _attrs._replace(**replace).  An escaping
IndexError aborts before that assignment. -/
def BScreen.select_graphic_rendition (s : BScreen) (attrsList : List Int) : BScreen :=
  let lst := if attrsList.isEmpty then [0] else attrsList
  match sgrLoop lst emptyReplace s.attrs with
  | .ok (rep, a) => { s with attrs := applyReplace rep a }
  | .error _ => s

/- ----------------------------------------------------------------
   Reports, OSC, bell, alignment.
   ---------------------------------------------------------------- -/

/-- square_close: OSC payloads 0; and 2; set the title, 1; the icon
name. -/
def BScreen.square_close (s : BScreen) (data : List Int) : BScreen :=
  match data with
  | 48 :: 59 :: rest => { s with title := rest }
  | 50 :: 59 :: rest => { s with title := rest }
  | 49 :: 59 :: rest => { s with iconName := rest }
  | _ => s

/-- report_device_status: parameter 6 (CPR) writes the one based
visible cursor position back to the process. -/
def BScreen.report_device_status (s : BScreen) (data : Int) : BScreen :=
  if data = 6 then
    let y := s.cursorY - s.lineOffset + 1
    let x := s.cursorX + 1
    let response := "\x1b[" ++ toString y ++ ";" ++ toString x ++ "R"
    { s with outputs := s.outputs ++ [response] }
  else s

def BScreen.report_device_attributes (s : BScreen) : BScreen :=
  { s with outputs := s.outputs ++ ["\x1b[>84;0;0c"] }

def BScreen.bell (s : BScreen) : BScreen := { s with bells := s.bells + 1 }

/-- alignment_display: fill the visible window with E characters. -/
def BScreen.alignment_display (s : BScreen) : BScreen :=
  let off := s.lineOffset
  (intRange 0 s.lines).foldl
    (fun t y =>
      let row := t.dataBuffer (y + off)
      let row' : PRow :=
        { row with cells := fun x =>
            if 0 ≤ x ∧ x < t.columns then { s := [69], token := .plain }
            else row.cells x }
      { t with dataBuffer := DataBuffer.set t.dataBuffer (y + off) row' })
    s

/-- insert_lines: inside the scrolling region, shift the rows from the
cursor down by count (rows leaving the region through the bottom are
lost), then a carriage return.  With margins unset the source fails to
unpack None into top and bottom; the stream dispatch swallows that
TypeError, so the net effect there is no change. -/
def BScreen.insert_lines (s : BScreen) (count : Int) : BScreen :=
  let count := orDefault count 1
  match s.margins with
  | none => s
  | some (top, bottom) =>
      let off := s.lineOffset
      let y := s.cursorY
      if top ≤ y - off ∧ y - off ≤ bottom then
        let s1 := ((intRange (y - off + 1) (bottom + 1)).reverse).foldl
          (fun t line =>
            if line - count < top then
              { t with dataBuffer := DataBuffer.pop t.dataBuffer (line + off) }
            else
              let db := DataBuffer.pop
                (DataBuffer.set t.dataBuffer (line + off)
                  (t.dataBuffer (line + off - count)))
                (line + off - count)
              { t with dataBuffer := db })
          s
        s1.carriage_return
      else s

/-- delete_lines: inside the scrolling region, shift the rows below
the cursor up by count, dropping rows past the bottom margin.  The
same TypeError remark as for insert_lines applies with margins
unset. -/
def BScreen.delete_lines (s : BScreen) (count : Int) : BScreen :=
  let count := orDefault count 1
  match s.margins with
  | none => s
  | some (top, bottom) =>
      let off := s.lineOffset
      let y := s.cursorY
      if top ≤ y - off ∧ y - off ≤ bottom then
        (intRange (y - off) (bottom + 1)).foldl
          (fun t line =>
            if bottom < line + count then
              { t with dataBuffer := DataBuffer.pop t.dataBuffer (line + off) }
            else
              let db := DataBuffer.set t.dataBuffer (line + off)
                (t.dataBuffer (line + count + off))
              { t with dataBuffer := db })
          s
      else s

/-- BetterScreen.reset (RIS): reset screen, title, modes, charsets and
tab stops; the alternate screen backup is dropped. -/
def BScreen.reset (s : BScreen) : BScreen :=
  { s.resetScreen with
    title := []
    iconName := []
    mode := {mDECAWM, mDECTCEM}
    charset := 0
    g0 := .lat1
    g1 := .vt100
    tabstops := initialTabstops
    original := none }

/- ================================================================
   Part 3: pymux/stream.py -- BetterStream.

   The generator based parser is a state machine whose state across
   feed calls is: the current state, the accumulated parameter digits,
   the collected parameter list, the private flag and the OSC buffer,
   plus the taking_plain_text flag of the feed fast path.  stepChar is
   one send of a single character into the generator.  The feed fast
   path additionally groups a maximal run of plain text characters of
   the CURRENT feed buffer into one send, which the generator hands to
   Screen.draw as a single call; since draw writes the cursor column
   field back only after a whole run while the insert mode shift reads
   that field, the grouping is visible in the resulting screen, and a
   chunk boundary inside a run changes it (claim C4).

   The basic, escape, sharp, percent and csi dispatch tables are class
   attributes of the pyte Stream base class (an external dependency of
   the source); they are modelled from the spec here, with the NEL
   override of BetterStream.  Unknown final bytes dispatch to a dummy
   handler and are dropped.
   ================================================================ -/

/-- The basic control table: BEL, BS, HT, LF, VT, FF, CR, SO, SI. -/
def isBasic (c : Int) : Bool :=
  decide (c = 7 ∨ c = 8 ∨ c = 9 ∨ c = 10 ∨ c = 11 ∨ c = 12 ∨ c = 13 ∨ c = 14 ∨ c = 15)

def dispatchBasic (c : Int) (s : BScreen) : BScreen :=
  if c = 7 then s.bell
  else if c = 8 then s.backspace
  else if c = 9 then s.tab
  else if c = 10 ∨ c = 11 ∨ c = 12 then s.linefeed
  else if c = 13 then s.carriage_return
  else if c = 14 then s.shift_out
  else if c = 15 then s.shift_in
  else s

/-- The escape table with the BetterStream NEL override: D index,
E next_line, M reverse_index, H set_tab_stop, 7 save_cursor,
8 restore_cursor, c reset; anything else is dropped. -/
def dispatchEscape (c : Int) (s : BScreen) : BScreen :=
  if c = 68 then s.index
  else if c = 69 then s.next_line
  else if c = 77 then s.reverse_index
  else if c = 72 then s.set_tab_stop
  else if c = 55 then s.save_cursor
  else if c = 56 then s.restore_cursor
  else if c = 99 then s.reset
  else s

/-- The csi dispatch: each handler is called with the collected
parameters (always at least one, since the final byte closes the
current parameter); a parameter count or private flag the handler
signature cannot accept raises TypeError, which the dispatch catches
and drops.  set_mode and reset_mode accept anything plus the private
flag; erase_in_line and erase_in_display accept one or two parameters
(the second lands in their ignored private argument) or one parameter
with the private flag; select_graphic_rendition accepts any parameter
list but no private flag. -/
def dispatchCsi (s : BScreen) (final : Int) (params : List Int) (priv : Bool) :
    BScreen :=
  if final = 104 then s.set_mode params priv
  else if final = 108 then s.reset_mode params priv
  else if final = 109 then
    if priv then s else s.select_graphic_rendition params
  else if final = 74 then
    match params, priv with
    | [p], _ => s.erase_in_display p
    | [p, _], false => s.erase_in_display p
    | _, _ => s
  else if final = 75 then
    match params, priv with
    | [p], _ => s.erase_in_line p
    | [p, _], false => s.erase_in_line p
    | _, _ => s
  else if final = 114 then
    match params, priv with
    | [t], false => s.set_margins (some t) none
    | [t, b], false => s.set_margins (some t) (some b)
    | _, _ => s
  else if final = 115 then s
  else if final = 117 then
    match params, priv with
    | [_], false => s
    | _, _ => s
  else
    match params, priv with
    | [p], false =>
        if final = 65 then s.cursor_up p
        else if final = 66 then s.cursor_down p
        else if final = 67 then s.cursor_forward p
        else if final = 68 then s.cursor_back p
        else if final = 69 then (s.cursor_down p).carriage_return
        else if final = 70 then (s.cursor_up p).carriage_return
        else if final = 71 then s.cursor_to_column p
        else if final = 76 then s.insert_lines p
        else if final = 77 then s.delete_lines p
        else if final = 80 then s.delete_characters p
        else if final = 88 then s.erase_characters p
        else if final = 64 then s.insert_characters p
        else if final = 99 then s.report_device_attributes
        else if final = 100 then s.cursor_to_line p
        else if final = 103 then s.clear_tab_stop p
        else if final = 110 then s.report_device_status p
        else s
    | [l, c], false =>
        if final = 72 ∨ final = 102 then s.cursor_position l c
        else s
    | _, _ => s

/-- The parser state carried between feed calls. -/
inductive PState where
  | ground
  | esc
  | escSharp
  | escPercent
  | escCharset (mode : Int)
  | osc (buf : List Int)
  | csi (current : Int) (params : List Int) (priv : Bool)
deriving Repr, DecidableEq

/-- The control characters the csi state dispatches inline. -/
def isCtrlInCsi (c : Int) : Bool :=
  decide (c = 7 ∨ c = 8 ∨ c = 9 ∨ c = 10 ∨ c = 11 ∨ c = 12 ∨ c = 13)

/-- One character of the parser generator. -/
def stepChar (st : PState) (s : BScreen) (c : Int) : PState × BScreen :=
  match st with
  | .ground =>
      if c = 27 then (.esc, s)
      else if c = 155 then (.csi 0 [] false, s)
      else if isBasic c then (.ground, dispatchBasic c s)
      else if c = 0 ∨ c = 127 then (.ground, s)
      else (.ground, s.draw [c])
  | .esc =>
      if c = 91 then (.csi 0 [] false, s)
      else if c = 35 then (.escSharp, s)
      else if c = 37 then (.escPercent, s)
      else if c = 40 ∨ c = 41 then (.escCharset c, s)
      else if c = 93 then (.osc [], s)
      else (.ground, dispatchEscape c s)
  | .escSharp => (.ground, if c = 56 then s.alignment_display else s)
  | .escPercent => (.ground, s)
  | .escCharset m => (.ground, s.set_charset c m)
  | .osc buf =>
      if c = 7 then (.ground, s.square_close buf)
      else (.osc (buf ++ [c]), s)
  | .csi cur params priv =>
      if c = 63 then (.csi cur params true, s)
      else if isCtrlInCsi c then (.csi cur params priv, dispatchBasic c s)
      else if c = 32 ∨ c = 62 then (.csi cur params priv, s)
      else if 48 ≤ c ∧ c ≤ 57 then (.csi (cur * 10 + (c - 48)) params priv, s)
      else
        let params' := params ++ [min cur 9999]
        if c = 59 then (.csi 0 params' priv, s)
        else (.ground, dispatchCsi s c params' priv)

/-- Sending a list of characters into the generator one send at a
time (the slow path of feed, used for every character of an escape
sequence and for plain text while the fast path is off). -/
def feedChars (st : PState × BScreen) (chars : List Int) : PState × BScreen :=
  chars.foldl (fun p c => stepChar p.1 p.2 c) st

/-- The complement of the _text_search set: true for the characters
the fast path may group into a plain text chunk (everything except
ESC, CSI, NUL, DEL and the basic control table). -/
def isPlainText (c : Int) : Bool :=
  !(c == 27 || c == 155 || c == 0 || c == 127 || isBasic c)

/-- What send returns after one character: True exactly when the
generator is back at the top of its loop, which happens when the new
state is ground and the character was not consumed by the inner draw
loop (a plain character arriving in the ground state is drawn and
leaves the generator at a plain yield, returning None). -/
def stepTaking (st : PState) (c : Int) (st2 : PState) : Bool :=
  (st2 == PState.ground) && !((st == PState.ground) && isPlainText c)

/-- The loop of BetterStream.feed.  While the last send returned True
(taking; the generator then sits at the top of its loop, in the
ground state) a maximal run of plain text characters of the current
feed buffer is collected (acc) and sent as one chunk, drawn by the
generator in a single Screen.draw call, after which send has returned
None; every other character is sent, and drawn, one at a time.  A run
cut off by the end of the feed buffer is flushed as one draw call and
leaves taking off, so its continuation in the next feed call is drawn
character by character: chunk boundaries change how runs are grouped
into draw calls. -/
def feedAux (taking : Bool) (st : PState) (s : BScreen) (acc : List Int) :
    List Int → Bool × PState × BScreen
  | [] =>
      if acc.isEmpty then (taking, st, s)
      else (false, st, s.draw acc)
  | c :: cs =>
      if taking && isPlainText c then
        feedAux taking st s (acc ++ [c]) cs
      else
        let s1 := if acc.isEmpty then s else s.draw acc
        let r := stepChar st s1 c
        feedAux (stepTaking st c r.1) r.1 r.2 [] cs

/-- BetterStream.feed on one chunk of input, over the persisted state
(taking_plain_text, parser state, screen).  The initial state has
taking_plain_text = True (the generator starts at the top of its
loop). -/
def feed (st : Bool × PState × BScreen) (chars : List Int) :
    Bool × PState × BScreen :=
  feedAux st.1 st.2.1 st.2.2 [] chars

/-- Feeding a sequence of chunks one feed call after another. -/
def feedMany (st : Bool × PState × BScreen) (chunks : List (List Int)) :
    Bool × PState × BScreen :=
  chunks.foldl feed st

/- ================================================================
   The screen operation language used by the alternate screen claim:
   one constructor per BetterScreen method reachable from the stream
   dispatch (except for the 1049 transitions themselves, quantified
   separately, and the full RIS reset).
   ================================================================ -/

inductive SOp where
  | draw (cs : List Int)
  | carriageReturn
  | linefeed
  | indexOp
  | reverseIndex
  | nextLine
  | tab
  | backspace
  | cursorUp (n : Int)
  | cursorDown (n : Int)
  | cursorBack (n : Int)
  | cursorForward (n : Int)
  | cursorPosition (l c : Int)
  | cursorToColumn (n : Int)
  | cursorToLine (n : Int)
  | setMargins (t b : Option Int)
  | setMode (ms : List Int) (priv : Bool)
  | resetMode (ms : List Int) (priv : Bool)
  | setCharset (code mode : Int)
  | shiftIn
  | shiftOut
  | insertChars (n : Int)
  | deleteChars (n : Int)
  | eraseChars (n : Int)
  | eraseInLine (t : Int)
  | eraseInDisplay (t : Int)
  | insertLines (n : Int)
  | deleteLines (n : Int)
  | setTabStop
  | clearTabStop (t : Int)
  | saveCursor
  | restoreCursor
  | sgr (attrs : List Int)
  | squareClose (data : List Int)
  | reportDeviceStatus (n : Int)
  | reportDeviceAttributes
  | bellOp
  | alignmentDisplay
  | clearHistory
  | resizeOp (l c : Option Int)

def execOp (s : BScreen) : SOp → BScreen
  | .draw cs => s.draw cs
  | .carriageReturn => s.carriage_return
  | .linefeed => s.linefeed
  | .indexOp => s.index
  | .reverseIndex => s.reverse_index
  | .nextLine => s.next_line
  | .tab => s.tab
  | .backspace => s.backspace
  | .cursorUp n => s.cursor_up n
  | .cursorDown n => s.cursor_down n
  | .cursorBack n => s.cursor_back n
  | .cursorForward n => s.cursor_forward n
  | .cursorPosition l c => s.cursor_position l c
  | .cursorToColumn n => s.cursor_to_column n
  | .cursorToLine n => s.cursor_to_line n
  | .setMargins t b => s.set_margins t b
  | .setMode ms priv => s.set_mode ms priv
  | .resetMode ms priv => s.reset_mode ms priv
  | .setCharset code mode => s.set_charset code mode
  | .shiftIn => s.shift_in
  | .shiftOut => s.shift_out
  | .insertChars n => s.insert_characters n
  | .deleteChars n => s.delete_characters n
  | .eraseChars n => s.erase_characters n
  | .eraseInLine t => s.erase_in_line t
  | .eraseInDisplay t => s.erase_in_display t
  | .insertLines n => s.insert_lines n
  | .deleteLines n => s.delete_lines n
  | .setTabStop => s.set_tab_stop
  | .clearTabStop t => s.clear_tab_stop t
  | .saveCursor => s.save_cursor
  | .restoreCursor => s.restore_cursor
  | .sgr attrs => s.select_graphic_rendition attrs
  | .squareClose data => s.square_close data
  | .reportDeviceStatus n => s.report_device_status n
  | .reportDeviceAttributes => s.report_device_attributes
  | .bellOp => s.bell
  | .alignmentDisplay => s.alignment_display
  | .clearHistory => s.clear_history
  | .resizeOp l c => s.resize l c

def execOps (s : BScreen) (ops : List SOp) : BScreen :=
  ops.foldl execOp s

/-- Does the operation set or reset the shifted alternate screen code
1049 << 5 (reachable both as set_mode(1049, private=True) and as a
non private set_mode of the already shifted code)? -/
def SOp.touchesAlt : SOp → Bool
  | .setMode ms priv => (if priv then ms.map (· * 32) else ms).contains mALT
  | .resetMode ms priv => (if priv then ms.map (· * 32) else ms).contains mALT
  | _ => false

/-- The tab stop set that reset_mode(1049) would restore: the snapshot
kept when the live set was rebound, else the live set itself (the
backup aliases it). -/
def restoredTabstops (s : BScreen) : Finset Int :=
  match s.original with
  | some b => b.tabstopsSnapshot.getD s.tabstops
  | none => s.tabstops

/-- Only the top level weights are at least one. -/
def topGE1 : Forest → Bool
  | .nil => true
  | .cons w _ tl => decide (1 ≤ w) && topGE1 tl

/-- Every subtree of the list satisfies weightsGE1 (the top level
weights of the list itself are unconstrained). -/
def subGE1 : Forest → Bool
  | .nil => true
  | .cons _ n tl => n.weightsGE1 && subGE1 tl

/-- The core of an alternate screen backup relative to the state s0
that was live when the alternate screen was entered (everything the
restore will write back from the backup, the aliased mode and tabstops
aside). -/
def altCoreP (s0 t : BScreen) : Prop :=
  ∃ b, t.original = some b ∧ b.margins = s0.margins ∧ b.charset = s0.charset ∧
    b.g0 = s0.g0 ∧ b.g1 = s0.g1 ∧ b.dataBuffer = s0.dataBuffer ∧
    b.cursorX = s0.cursorX ∧ b.cursorY = s0.cursorY ∧
    b.showCursor = s0.showCursor ∧ b.maxY = s0.maxY

/- ----------------------------------------------------------------
   Concrete fixtures used by witnesses and counterexamples.
   ---------------------------------------------------------------- -/

/-- A fresh window after add_pane(p1001) and add_pane(p1002, vsplit):
root H[V[1: p1001, 1: p1002]], active 1002. -/
def wFix2 : Window := ((freshWindow 0).add_pane false).add_pane true

/-- The same window with both pane weights raised to 3. -/
def wFixC2 : Window :=
  { wFix2 with root := .split false (.cons 1 (.split true
      (.cons 3 (.pane 1001) (.cons 3 (.pane 1002) .nil))) .nil) }

def sFix : BScreen := mkScreen 4 10

/-- A two line screen whose cursor sits deep in the scrollback
(line_offset = 4). -/
def sFixScroll : BScreen := { mkScreen 2 10 with cursorY := 5, maxY := 5 }

/-- Two windows with indexes 0 and 1; the client is on window 1001. -/
def arrFix : Arrangement :=
  { windows := [{ freshWindow 0 with windowId := 1001 },
                { freshWindow 1 with windowId := 1002 }]
    baseIndex := 0
    activeWindowId := 1001 }

end Pymux

/- ================================================================
   THEOREMS.
   ================================================================ -/

namespace Pymux

/- ----------------------------------------------------------------
   Claim C9: removing a pane that is not in the window is a no-op.
   ---------------------------------------------------------------- -/

/-- C9: for every window w and pane id pid not contained in w,
Window.remove_pane leaves the window completely unchanged (split tree,
weights, active pane, previous active pane and all other fields). -/
theorem remove_pane_foreign_noop (w : Window) (pid : Nat)
    (h : pid ∉ w.root.panes) : w.remove_pane pid = w := by
  simp [Window.remove_pane, h]

theorem remove_pane_foreign_noop_witness :
    999 ∉ wFix2.root.panes ∧ wFix2.remove_pane 999 = wFix2 :=
  ⟨by decide, remove_pane_foreign_noop wFix2 999 (by decide)⟩

/- ----------------------------------------------------------------
   Claim C10: select_graphic_rendition with no arguments equals
   select_graphic_rendition(0) and resets every pending attribute.
   ---------------------------------------------------------------- -/

/-- C10: calling select_graphic_rendition with an empty argument list
is the very same computation as calling it with [0], and both reset
every pending text attribute (colors and the five flags) to its
default, whatever was in effect before. -/
theorem sgr_empty_eq_zero (s : BScreen) :
    s.select_graphic_rendition [] = s.select_graphic_rendition [0] ∧
    (s.select_graphic_rendition []).attrs = defaultAttrs :=
  ⟨rfl, rfl⟩

/- ----------------------------------------------------------------
   Claim C4: restartability at chunk boundaries.  The parser STATE is
   restartable, but the screen is not: the fast path of feed hands a
   maximal plain text run of one feed buffer to Screen.draw as a
   single call, draw assigns the cursor column field only after the
   whole run, and in insert mode insert_characters shifts the row at
   that stale field column.  A chunk boundary inside a run therefore
   changes where the insert shifts happen.
   ---------------------------------------------------------------- -/

/-- C4: the claim fails on the program.  For the byte stream
ESC [ 4 h a b (set insert mode, then the plain run a b): fed whole,
the run a b becomes one draw call, the insert shift for b happens at
the stale cursor column 0 and pushes a under the write of b, leaving
the first cell blank; fed as the chunks ESC [ 4 h a and b, each draw
call writes the cursor column back first, and the row keeps a at cell
0 and b at cell 1.  The flatten equation shows the two feedings are
the same byte stream. -/
theorem feed_restart_divergence :
    [[27, 91, 52, 104, 97], [98]].flatten = [27, 91, 52, 104, 97, 98] ∧
    (((feedMany (true, PState.ground, mkScreen 4 10)
        [[27, 91, 52, 104, 97], [98]]).2.2.dataBuffer 0).cells 0).s
      = [97] ∧
    (((feed (true, PState.ground, mkScreen 4 10)
        [27, 91, 52, 104, 97, 98]).2.2.dataBuffer 0).cells 0).s
      = [32] := by
  refine ⟨rfl, ?_, ?_⟩ <;> decide

/- ----------------------------------------------------------------
   Claim C7: the cursor position report.
   ---------------------------------------------------------------- -/

/-- C7 counterexample: on a screen whose cursor sits in the
scrollback, feeding ESC [ 6 n writes the visible row (y − line_offset
+ 1 = 2), not the absolute cursor row plus one (y + 1 = 6) as the
claim reads. -/
theorem report_cursor_position_counterexample :
    (feedChars (PState.ground, sFixScroll) [27, 91, 54, 110]).2.outputs
      = ["\x1b[2;1R"] ∧
    ("\x1b[" ++ toString (sFixScroll.cursorY + 1) ++ ";"
      ++ toString (sFixScroll.cursorX + 1) ++ "R") = "\x1b[6;1R" ∧
    ("\x1b[2;1R" : String) ≠ "\x1b[6;1R" :=
  ⟨rfl, rfl, by decide⟩

/-- C7 amended: feeding ESC [ 6 n from the ground state performs
exactly one write_process_input call, whose text is ESC [ then the one
based visible cursor row (y − line_offset + 1), a semicolon, x + 1 and
R; the parser returns to ground and the screen is otherwise
untouched. -/
theorem report_cursor_position (s : BScreen) :
    feedChars (PState.ground, s) [27, 91, 54, 110] =
      (PState.ground,
        { s with outputs := s.outputs ++
            ["\x1b[" ++ toString (s.cursorY - s.lineOffset + 1) ++ ";"
              ++ toString (s.cursorX + 1) ++ "R"] }) := by
  rfl

/- ----------------------------------------------------------------
   Claim C1: the select-layout command handler.
   ---------------------------------------------------------------- -/

/-- C1 (code bug): the select-layout command handler reads its local
layout_type_obj before assigning it, so for every requested layout
kind and every window it raises UnboundLocalError instead of applying
the template; Window.select_layout is never reached (the spec lists
this self reference among the known defects of the source). -/
theorem select_layout_command_raises (lt : String) (w : Window) :
    select_layout_command lt w = Except.error PyError.unboundLocalError :=
  rfl

/- ----------------------------------------------------------------
   Claim C2: resize weight bookkeeping.
   ---------------------------------------------------------------- -/

/-- Tail recursion principle for Forest (for properties that do not
descend into the child nodes). -/
theorem Forest.recTail {motive : Forest → Prop} (nil : motive .nil)
    (cons : ∀ w n tl, motive tl → motive (.cons w n tl)) : ∀ cs, motive cs
  | .nil => nil
  | .cons w n tl => cons w n tl (Forest.recTail nil cons tl)

theorem weightsGE1F_split (cs : Forest) (h : weightsGE1F cs = true) :
    topGE1 cs = true ∧ subGE1 cs = true := by
  induction cs using Forest.recTail with
  | nil => simp [topGE1, subGE1]
  | cons w n tl ih =>
      simp only [weightsGE1F, Bool.and_eq_true] at h
      simp [topGE1, subGE1, h.1.1, h.1.2, h.2, ih h.2]

theorem findPathIdx_lt (pid : Nat) (cs : Forest) (i : Nat)
    (h : findPathIdx pid cs = some i) : i < cs.length := by
  induction cs using Forest.recTail generalizing i with
  | nil => simp [findPathIdx] at h
  | cons w n tl ih =>
      simp only [findPathIdx] at h
      split at h
      · simp only [Option.some.injEq] at h
        subst h
        simp [Forest.length]
      · cases hi : findPathIdx pid tl with
        | none => rw [hi] at h; simp at h
        | some j =>
            rw [hi] at h
            have h' : j + 1 = i := by simpa using h
            subst h'
            have := ih j hi
            simp [Forest.length]
            omega

theorem addW_length (cs : Forest) (i : Nat) (d : Int) :
    (cs.addW i d).length = cs.length := by
  induction cs using Forest.recTail generalizing i with
  | nil => rfl
  | cons w n tl ih =>
      cases i with
      | zero => rfl
      | succ j => simp [Forest.addW, Forest.length, ih j]

theorem addW_getW_ne (cs : Forest) (i j : Nat) (d : Int) (hij : i ≠ j) :
    (cs.addW i d).getW j = cs.getW j := by
  induction cs using Forest.recTail generalizing i j with
  | nil => rfl
  | cons w n tl ih =>
      cases i with
      | zero => cases j with
          | zero => exact absurd rfl hij
          | succ j' => rfl
      | succ i' => cases j with
          | zero => rfl
          | succ j' => exact ih i' j' (by omega)

theorem addW_sum (cs : Forest) (i : Nat) (d : Int) (hi : i < cs.length) :
    weightSumF (cs.addW i d) = weightSumF cs + d := by
  induction cs using Forest.recTail generalizing i with
  | nil => simp [Forest.length] at hi
  | cons w n tl ih =>
      cases i with
      | zero => simp [Forest.addW, weightSumF]; ring
      | succ j =>
          simp only [Forest.addW, weightSumF]
          rw [ih j (by simpa [Forest.length] using hi)]
          ring

theorem addW_subGE1 (cs : Forest) (i : Nat) (d : Int) :
    subGE1 (cs.addW i d) = subGE1 cs := by
  induction cs using Forest.recTail generalizing i with
  | nil => rfl
  | cons w n tl ih =>
      cases i with
      | zero => rfl
      | succ j => simp [Forest.addW, subGE1, ih j]

theorem addW_topGE1 (cs : Forest) (i : Nat) (d : Int)
    (h : topGE1 cs = true) (hd : 1 ≤ cs.getW i + d) :
    topGE1 (cs.addW i d) = true := by
  induction cs using Forest.recTail generalizing i with
  | nil => rfl
  | cons w n tl ih =>
      simp only [topGE1, Bool.and_eq_true, decide_eq_true_eq] at h
      cases i with
      | zero =>
          simp only [Forest.getW] at hd
          simp [Forest.addW, topGE1, hd, h.2]
      | succ j =>
          simp only [Forest.getW] at hd
          simp [Forest.addW, topGE1, h.1, ih j h.2 hd]

theorem clamp1_eq_self (cs : Forest) (h : topGE1 cs = true) :
    cs.clamp1 = cs := by
  induction cs using Forest.recTail with
  | nil => rfl
  | cons w n tl ih =>
      simp only [topGE1, Bool.and_eq_true, decide_eq_true_eq] at h
      simp [Forest.clamp1, ih h.2, max_eq_right h.1]

theorem clamp1_ge1 (cs : Forest) (h : subGE1 cs = true) :
    weightsGE1F (cs.clamp1) = true := by
  induction cs using Forest.recTail with
  | nil => rfl
  | cons w n tl ih =>
      simp only [subGE1, Bool.and_eq_true] at h
      simp [Forest.clamp1, weightsGE1F, h.1, ih h.2]

theorem applyWeights_ge1 (cs : Forest) (i j : Nat) (amt : Int)
    (h : weightsGE1F cs = true) : weightsGE1F (applyWeights i j amt cs) = true := by
  have hsub := (weightsGE1F_split cs h).2
  unfold applyWeights
  apply clamp1_ge1
  rw [addW_subGE1, addW_subGE1]
  exact hsub

theorem applyWeights_sum (cs : Forest) (i j : Nat) (amt : Int)
    (hij : i ≠ j) (hi : i < cs.length) (hj : j < cs.length)
    (htop : topGE1 cs = true)
    (hc : 1 ≤ cs.getW i + amt) (hn : 1 ≤ cs.getW j - amt) :
    weightSumF (applyWeights i j amt cs) = weightSumF cs := by
  unfold applyWeights
  have h1 : topGE1 (cs.addW i amt) = true := addW_topGE1 cs i amt htop hc
  have h2 : topGE1 ((cs.addW i amt).addW j (-amt)) = true := by
    apply addW_topGE1 _ _ _ h1
    rw [addW_getW_ne cs i j amt hij]
    omega
  rw [clamp1_eq_self _ h2]
  rw [addW_sum _ _ _ (by rw [addW_length]; exact hj)]
  rw [addW_sum _ _ _ hi]
  ring

mutual
theorem hsNode_weights (vert isBefore : Bool) (amt : Int) (pid : Nat) :
    ∀ (n n' : RNode) (wc wn : Int),
    hsNode vert isBefore amt pid n = (n', some (wc, wn)) →
    n.weightsGE1 = true →
    n'.weightsGE1 = true ∧
      (1 ≤ wc + amt → 1 ≤ wn - amt → n'.weightSum = n.weightSum)
  | .pane i, n', wc, wn, heq => by simp [hsNode] at heq
  | .split v cs, n', wc, wn, heq => by
      intro hge
      simp only [RNode.weightsGE1] at hge
      rw [hsNode] at heq
      cases hf : hsF vert isBefore amt pid cs with
      | some r =>
          obtain ⟨cs', info⟩ := r
          simp only [hf] at heq
          injection heq with e1 e2
          injection e2 with e2
          subst e1
          subst e2
          have := hsF_weights vert isBefore amt pid cs cs' wc wn hf hge
          simpa [RNode.weightsGE1, RNode.weightSum] using this
      | none =>
          cases hfi : findPathIdx pid cs with
          | none => simp [hf, hfi] at heq
          | some i =>
              simp only [hf, hfi] at heq
              by_cases hcond :
                  (v == vert &&
                    (if isBefore then decide (0 < i)
                     else decide (i + 1 < cs.length))) = true
              · rw [if_pos hcond] at heq
                injection heq with e1 e2
                injection e2 with e2
                injection e2 with e3 e4
                subst e1
                subst e3
                subst e4
                have hi : i < cs.length := findPathIdx_lt pid cs i hfi
                have hjf : (if isBefore then i - 1 else i + 1) < cs.length ∧
                    i ≠ (if isBefore then i - 1 else i + 1) := by
                  simp only [Bool.and_eq_true, beq_iff_eq] at hcond
                  rcases hcond with ⟨-, hidx⟩
                  cases isBefore <;> simp_all <;> omega
                constructor
                · simpa [RNode.weightsGE1] using
                    applyWeights_ge1 cs i (if isBefore then i - 1 else i + 1) amt hge
                · intro hb1 hb2
                  simp only [RNode.weightSum]
                  exact applyWeights_sum cs i (if isBefore then i - 1 else i + 1) amt
                    hjf.2 hi hjf.1 (weightsGE1F_split cs hge).1 hb1 hb2
              · rw [if_neg hcond] at heq
                simp at heq

theorem hsF_weights (vert isBefore : Bool) (amt : Int) (pid : Nat) :
    ∀ (cs cs' : Forest) (wc wn : Int),
    hsF vert isBefore amt pid cs = some (cs', (wc, wn)) →
    weightsGE1F cs = true →
    weightsGE1F cs' = true ∧
      (1 ≤ wc + amt → 1 ≤ wn - amt → weightSumF cs' = weightSumF cs)
  | .nil, cs', wc, wn, heq => by simp [hsF] at heq
  | .cons w n tl, cs', wc, wn, heq => by
      intro hge
      simp only [weightsGE1F, Bool.and_eq_true, decide_eq_true_eq] at hge
      obtain ⟨⟨hw, hn⟩, htl⟩ := hge
      rw [hsF] at heq
      split at heq
      · cases hh : hsNode vert isBefore amt pid n with
        | mk n' info =>
            simp only [hh] at heq
            cases info with
            | some p =>
                obtain ⟨wc0, wn0⟩ := p
                injection heq with e
                injection e with e1 e2
                injection e2 with e3 e4
                subst e1
                subst e3
                subst e4
                have := hsNode_weights vert isBefore amt pid n n' wc0 wn0 hh hn
                constructor
                · simp [weightsGE1F, hw, this.1, htl]
                · intro hb1 hb2
                  simp [weightSumF, this.2 hb1 hb2]
            | none => simp at heq
      · cases hh : hsF vert isBefore amt pid tl with
        | some r =>
            obtain ⟨tl', info⟩ := r
            simp only [hh] at heq
            injection heq with e
            injection e with e1 e2
            subst e1
            subst e2
            have := hsF_weights vert isBefore amt pid tl tl' wc wn hh htl
            constructor
            · simp [weightsGE1F, hw, hn, this.1]
            · intro hb1 hb2
              simp [weightSumF, this.2 hb1 hb2]
        | none => simp [hh] at heq
end

theorem sideStep_zero (vert isBefore : Bool) (pid : Nat) (n : RNode) :
    sideStep vert isBefore 0 pid n = n := by
  simp [sideStep]

theorem sideStep_spec (vert isBefore : Bool) (amt : Int) (pid : Nat) (n : RNode)
    (wc wn : Int) (hfeas : (hsNode vert isBefore amt pid n).2 = some (wc, wn))
    (hge : n.weightsGE1 = true) :
    (sideStep vert isBefore amt pid n).weightsGE1 = true ∧
    (1 ≤ wc + amt → 1 ≤ wn - amt →
      (sideStep vert isBefore amt pid n).weightSum = n.weightSum) := by
  by_cases hz : amt = 0
  · subst hz
    rw [sideStep_zero]
    exact ⟨hge, fun _ _ => rfl⟩
  · cases hEq : hsNode vert isBefore amt pid n with
    | mk n' info =>
        rw [hEq] at hfeas
        simp only at hfeas
        subst hfeas
        have := hsNode_weights vert isBefore amt pid n n' wc wn hEq hge
        have hstep : sideStep vert isBefore amt pid n = n' := by
          simp [sideStep, hz, hEq]
        rw [hstep]
        exact this

/-- C2 counterexample: with both weights 1, resizing the right pane of
a two pane VSplit left by 2 is feasible (hsNode finds the split, the
pre-update weights being (1, 1)), yet the clamping of the neighbour
weight to 1 grows the total weight from 3 to 5: the sum of the weights
of the affected split is not preserved. -/
theorem change_size_counterexample :
    (hsNode true true 2 1002 wFix2.root).2 = some (1, 1) ∧
    wFix2.root.weightsGE1 = true ∧
    wFix2.root.weightSum = 3 ∧
    (wFix2.change_size_for_active_pane 0 0 0 2).root.weightSum = 5 :=
  ⟨rfl, rfl, rfl, rfl⟩

/-- C2 amended: for a single direction resize request that is feasible
(hsNode locates the deepest matching ancestor split, with pre-update
weights wc for the child on the path and wn for its neighbour), if all
weights were at least 1 before the call then all weights are at least
1 after it; and provided the two adjusted weights stay at least 1 (so
the clamp is a no-op) the total of all split weights -- hence the
total of the affected split, all other splits staying untouched -- is
preserved.  When clamping fires, the counterexample shows the sum can
grow. -/
theorem change_size_weights (w : Window) (pid : Nat) (vert isBefore : Bool)
    (amt up right down left wc wn : Int)
    (hdir : (up, right, down, left) = singleDir vert isBefore amt)
    (hfeas : (hsNode vert isBefore amt pid w.root).2 = some (wc, wn))
    (hge : w.root.weightsGE1 = true) :
    (w.change_size_for_pane pid up right down left).root.weightsGE1 = true ∧
    (1 ≤ wc + amt → 1 ≤ wn - amt →
      (w.change_size_for_pane pid up right down left).root.weightSum
        = w.root.weightSum) := by
  have hmain := sideStep_spec vert isBefore amt pid w.root wc wn hfeas hge
  cases vert <;> cases isBefore <;>
    (simp only [singleDir, Prod.mk.injEq] at hdir;
     obtain ⟨h1, h2, h3, h4⟩ := hdir) <;>
    subst h1 <;> subst h2 <;> subst h3 <;> subst h4 <;>
    simpa [Window.change_size_for_pane, changeSizeRoot, sideStep_zero]
      using hmain

theorem change_size_weights_witness :
    (wFixC2.change_size_for_pane 1002 0 0 0 2).root.weightsGE1 = true ∧
    (wFixC2.change_size_for_pane 1002 0 0 0 2).root.weightSum
      = wFixC2.root.weightSum := by
  have h := change_size_weights wFixC2 1002 true true 2 0 0 0 2 3 3 rfl rfl rfl
  exact ⟨h.1, h.2 (by decide) (by decide)⟩

/- ----------------------------------------------------------------
   Claim C6: draw of a printable run.
   ---------------------------------------------------------------- -/

theorem translate_width (cid : CharsetId) (c : Int) (h1 : 32 ≤ c) (h2 : c ≤ 126) :
    charWidth (translateChar cid c) = 1 := by
  cases cid <;> simp only [translateChar, charWidth] <;> split_ifs <;> omega

theorem translate_width' (s : BScreen) (c : Int) (h1 : 32 ≤ c) (h2 : c ≤ 126) :
    charWidth (s.translate c) = 1 := by
  unfold BScreen.translate
  split_ifs <;> exact translate_width _ c h1 h2

/-- One drawChar step with a width one character whose local column is
left of the right edge: the local column advances by one, the local
row, cursor fields and dimensions stay, and only the local row and the
cursor row of the buffer can be touched (the cell write lands on the
local row, the insert mode shift on the cursor field row). -/
theorem drawChar_step (t : BScreen) (x y ch : Int) (hw : charWidth ch = 1)
    (hx : x < t.columns) :
    (BScreen.drawChar (t, x, y) ch).2.1 = x + 1 ∧
    (BScreen.drawChar (t, x, y) ch).2.2 = y ∧
    (BScreen.drawChar (t, x, y) ch).1.cursorY = t.cursorY ∧
    (BScreen.drawChar (t, x, y) ch).1.columns = t.columns ∧
    ∀ r, r ≠ y → r ≠ t.cursorY →
      (BScreen.drawChar (t, x, y) ch).1.dataBuffer r = t.dataBuffer r := by
  have hnot : ¬ t.columns ≤ x := by omega
  by_cases hirm : mIRM ∈ t.mode <;>
    simp [BScreen.drawChar, drawCore, hw, hnot, hirm,
      BScreen.insert_characters, DataBuffer.set] <;>
    intro r hr1 hr2 <;> simp [hr1, hr2]

theorem draw_loop (cs : List Int) :
    ∀ (t : BScreen) (x y : Int),
    (∀ c ∈ cs, charWidth c = 1) →
    x + cs.length ≤ t.columns →
    y = t.cursorY →
    (cs.foldl BScreen.drawChar (t, x, y)).2.1 = x + cs.length ∧
    (cs.foldl BScreen.drawChar (t, x, y)).2.2 = y ∧
    (cs.foldl BScreen.drawChar (t, x, y)).1.cursorY = t.cursorY ∧
    (cs.foldl BScreen.drawChar (t, x, y)).1.columns = t.columns ∧
    ∀ r, r ≠ y →
      (cs.foldl BScreen.drawChar (t, x, y)).1.dataBuffer r = t.dataBuffer r := by
  induction cs with
  | nil =>
      intro t x y _ _ _
      simp
  | cons c tl ih =>
      intro t x y h1 hlen hy
      have hw := h1 c (by simp)
      have hx : x < t.columns := by
        simp only [List.length_cons] at hlen
        omega
      obtain ⟨e1, e2, e3, e4, e5⟩ := drawChar_step t x y c hw hx
      rcases hsplit : BScreen.drawChar (t, x, y) c with ⟨t2, x2, y2⟩
      rw [hsplit] at e1 e2 e3 e4 e5
      simp only at e1 e2 e3 e4 e5
      obtain ⟨f1, f2, f3, f4, f5⟩ := ih t2 x2 y2
        (fun c2 hc2 => h1 c2 (by simp [hc2]))
        (by rw [e1, e4]; simp only [List.length_cons] at hlen; omega)
        (by rw [e2, e3, hy])
      refine ⟨?_, ?_, ?_, ?_, ?_⟩
      · rw [List.foldl_cons, hsplit, f1, e1]
        simp only [List.length_cons]
        omega
      · rw [List.foldl_cons, hsplit, f2, e2]
      · rw [List.foldl_cons, hsplit, f3, e3]
      · rw [List.foldl_cons, hsplit, f4, e4]
      · intro r hr
        rw [List.foldl_cons, hsplit, f5 r (by rw [e2]; exact hr),
          e5 r hr (by rw [← hy]; exact hr)]

/-- C6: drawing a run of printable single width ASCII characters that
fits in the remaining columns advances the cursor column by exactly
the length of the run and leaves every row of the data buffer other
than the cursor row unchanged. -/
theorem draw_ascii_frame (s : BScreen) (cs : List Int)
    (hascii : ∀ c ∈ cs, 32 ≤ c ∧ c ≤ 126)
    (hlen : s.cursorX + cs.length ≤ s.columns) :
    (s.draw cs).cursorX = s.cursorX + cs.length ∧
    ∀ r, r ≠ s.cursorY → (s.draw cs).dataBuffer r = s.dataBuffer r := by
  have h1 : ∀ c ∈ cs.map s.translate, charWidth c = 1 := by
    intro c hc
    obtain ⟨c0, hc0, rfl⟩ := List.mem_map.mp hc
    exact translate_width' s c0 (hascii c0 hc0).1 (hascii c0 hc0).2
  have hlen' : s.cursorX + (cs.map s.translate).length ≤ s.columns := by
    simpa using hlen
  obtain ⟨g1, g2, g3, g4, g5⟩ :=
    draw_loop (cs.map s.translate) s s.cursorX s.cursorY h1 hlen' rfl
  constructor
  · simp only [BScreen.draw]
    simpa using g1
  · intro r hr
    have hdb := g5 r hr
    simp only [BScreen.draw]
    split <;> simpa using hdb

theorem draw_ascii_frame_witness :
    (∀ c ∈ [104, 105], (32:Int) ≤ c ∧ c ≤ 126) ∧
    sFix.cursorX + ([104, 105] : List Int).length ≤ sFix.columns ∧
    (sFix.draw [104, 105]).cursorX = sFix.cursorX + 2 ∧
    ∀ r, r ≠ sFix.cursorY → (sFix.draw [104, 105]).dataBuffer r = sFix.dataBuffer r := by
  refine ⟨by decide, by decide, ?_, ?_⟩
  · exact (draw_ascii_frame sFix [104, 105] (by decide) (by decide)).1
  · exact (draw_ascii_frame sFix [104, 105] (by decide) (by decide)).2

/- ----------------------------------------------------------------
   Claim C3: the alternate screen restore.  First: none of the screen
   operations other than the 1049 transitions (and the snapshot taken
   by clear_tab_stop(3)) ever touches the stored backup.
   ---------------------------------------------------------------- -/

theorem original_foldl {α : Type} (g : BScreen → α → BScreen) (l : List α)
    (s : BScreen) (hg : ∀ t a, (g t a).original = t.original) :
    (l.foldl g s).original = s.original := by
  induction l generalizing s with
  | nil => rfl
  | cons a tl ih => rw [List.foldl_cons, ih, hg]

@[simp] theorem original_carriage_return (s : BScreen) :
    s.carriage_return.original = s.original := rfl

@[simp] theorem original_removeOldLines (s : BScreen) :
    s.removeOldLines.original = s.original := rfl

@[simp] theorem original_clear_history (s : BScreen) :
    s.clear_history.original = s.original := rfl

@[simp] theorem original_ensure_bounds (s : BScreen) (um : Bool) :
    (s.ensure_bounds um).original = s.original := rfl

@[simp] theorem original_cursor_down (s : BScreen) (n : Int) :
    (s.cursor_down n).original = s.original := rfl

@[simp] theorem original_cursor_up (s : BScreen) (n : Int) :
    (s.cursor_up n).original = s.original := rfl

@[simp] theorem original_cursor_back (s : BScreen) (n : Int) :
    (s.cursor_back n).original = s.original := rfl

@[simp] theorem original_cursor_forward (s : BScreen) (n : Int) :
    (s.cursor_forward n).original = s.original := rfl

@[simp] theorem original_backspace (s : BScreen) :
    s.backspace.original = s.original := rfl

@[simp] theorem original_cursor_to_column (s : BScreen) (n : Int) :
    (s.cursor_to_column n).original = s.original := rfl

@[simp] theorem original_tab (s : BScreen) :
    s.tab.original = s.original := rfl

@[simp] theorem original_set_tab_stop (s : BScreen) :
    s.set_tab_stop.original = s.original := rfl

@[simp] theorem original_shift_in (s : BScreen) :
    s.shift_in.original = s.original := rfl

@[simp] theorem original_shift_out (s : BScreen) :
    s.shift_out.original = s.original := rfl

@[simp] theorem original_bell (s : BScreen) :
    s.bell.original = s.original := rfl

@[simp] theorem original_report_device_attributes (s : BScreen) :
    s.report_device_attributes.original = s.original := rfl

@[simp] theorem original_insert_characters (s : BScreen) (n : Int) :
    (s.insert_characters n).original = s.original := rfl

@[simp] theorem original_delete_characters (s : BScreen) (n : Int) :
    (s.delete_characters n).original = s.original := rfl

@[simp] theorem original_erase_characters (s : BScreen) (n : Int) :
    (s.erase_characters n).original = s.original := rfl

@[simp] theorem original_save_cursor (s : BScreen) :
    s.save_cursor.original = s.original := rfl

@[simp] theorem original_report_device_status (s : BScreen) (n : Int) :
    (s.report_device_status n).original = s.original := by
  unfold BScreen.report_device_status
  split <;> rfl

@[simp] theorem original_square_close (s : BScreen) (data : List Int) :
    (s.square_close data).original = s.original := by
  unfold BScreen.square_close
  split <;> rfl

@[simp] theorem original_set_charset (s : BScreen) (code mode : Int) :
    (s.set_charset code mode).original = s.original := by
  unfold BScreen.set_charset
  split
  · rfl
  · split <;> [rfl; skip]
    split <;> rfl

@[simp] theorem original_erase_in_line (s : BScreen) (t : Int) :
    (s.erase_in_line t).original = s.original := by
  unfold BScreen.erase_in_line
  split <;> rfl

@[simp] theorem original_resize (s : BScreen) (l c : Option Int) :
    (s.resize l c).original = s.original := by
  simp only [BScreen.resize]
  split <;> rfl

@[simp] theorem original_sgr (s : BScreen) (attrs : List Int) :
    (s.select_graphic_rendition attrs).original = s.original := by
  simp only [BScreen.select_graphic_rendition]
  split <;> rfl

@[simp] theorem original_index (s : BScreen) :
    s.index.original = s.original := by
  cases hm : s.margins with
  | none => simp [BScreen.index, hm, apply_ite BScreen.original]
  | some p =>
      obtain ⟨top, bottom⟩ := p
      simp only [BScreen.index, hm]
      split
      · exact original_foldl _ _ _ (fun t a => rfl)
      · simp

@[simp] theorem original_linefeed (s : BScreen) :
    s.linefeed.original = s.original := by
  simp [BScreen.linefeed, apply_ite BScreen.original]

@[simp] theorem original_next_line (s : BScreen) :
    s.next_line.original = s.original := by
  simp [BScreen.next_line]

@[simp] theorem original_reverse_index (s : BScreen) :
    s.reverse_index.original = s.original := by
  simp only [BScreen.reverse_index]
  split
  · exact original_foldl _ _ _ (fun t a => rfl)
  · simp

@[simp] theorem original_cursor_position (s : BScreen) (l c : Int) :
    (s.cursor_position l c).original = s.original := by
  cases hm : s.margins with
  | none => simp [BScreen.cursor_position, hm]
  | some p =>
      obtain ⟨t, b⟩ := p
      simp [BScreen.cursor_position, hm, apply_ite BScreen.original]

@[simp] theorem original_cursor_to_line (s : BScreen) (n : Int) :
    (s.cursor_to_line n).original = s.original := by
  cases hm : s.margins with
  | none => simp [BScreen.cursor_to_line, hm]
  | some p =>
      obtain ⟨t, b⟩ := p
      simp [BScreen.cursor_to_line, hm, apply_ite BScreen.original]

@[simp] theorem original_set_margins (s : BScreen) (t b : Option Int) :
    (s.set_margins t b).original = s.original := by
  cases t <;> cases b <;>
    simp [BScreen.set_margins, apply_ite BScreen.original]

@[simp] theorem original_erase_in_display (s : BScreen) (t : Int) :
    (s.erase_in_display t).original = s.original := by
  simp only [BScreen.erase_in_display]
  split_ifs <;>
    (try simp only [original_erase_in_line]) <;>
    first
      | rfl
      | exact original_foldl _ _ _ (fun t a => rfl)

@[simp] theorem original_alignment_display (s : BScreen) :
    s.alignment_display.original = s.original := by
  simp only [BScreen.alignment_display]
  exact original_foldl _ _ _ (fun t a => rfl)

@[simp] theorem original_insert_lines (s : BScreen) (n : Int) :
    (s.insert_lines n).original = s.original := by
  cases hm : s.margins with
  | none => simp [BScreen.insert_lines, hm]
  | some p =>
      obtain ⟨top, bottom⟩ := p
      simp only [BScreen.insert_lines, hm]
      split
      · rw [original_carriage_return]
        refine original_foldl _ _ _ (fun t a => ?_)
        split <;> rfl
      · rfl

@[simp] theorem original_delete_lines (s : BScreen) (n : Int) :
    (s.delete_lines n).original = s.original := by
  cases hm : s.margins with
  | none => simp [BScreen.delete_lines, hm]
  | some p =>
      obtain ⟨top, bottom⟩ := p
      simp only [BScreen.delete_lines, hm]
      split
      · refine original_foldl _ _ _ (fun t a => ?_)
        split <;> rfl
      · rfl

@[simp] theorem original_drawCore (s : BScreen) (x y ch w : Int) :
    (drawCore s x y ch w).1.original = s.original := by
  simp only [drawCore]
  split_ifs <;> rfl

@[simp] theorem original_drawChar (a : BScreen × Int × Int) (c : Int) :
    (BScreen.drawChar a c).1.original = a.1.original := by
  obtain ⟨s, x, y⟩ := a
  simp only [BScreen.drawChar]
  split_ifs <;> simp

@[simp] theorem original_draw (s : BScreen) (cs : List Int) :
    (s.draw cs).original = s.original := by
  have haux : ∀ (l : List Int) (a : BScreen × Int × Int),
      (l.foldl BScreen.drawChar a).1.original = a.1.original := by
    intro l
    induction l with
    | nil => intro a; rfl
    | cons c tl ih =>
        intro a
        rw [List.foldl_cons, ih, original_drawChar]
  simp only [BScreen.draw]
  split <;> simpa using haux (cs.map s.translate) (s, s.cursorX, s.cursorY)

theorem original_set_mode (s : BScreen) (ms : List Int) (priv : Bool)
    (h : mALT ∉ (if priv then ms.map (· * 32) else ms)) :
    (s.set_mode ms priv).original = s.original := by
  simp only [BScreen.set_mode]
  split_ifs <;> simp_all

theorem original_reset_mode_noalt (s : BScreen) (ms : List Int) (priv : Bool)
    (h : mALT ∉ (if priv then ms.map (· * 32) else ms)) :
    (s.reset_mode ms priv).original = s.original := by
  simp only [BScreen.reset_mode]
  split_ifs <;> simp_all

@[simp] theorem original_set_mode_decom (s : BScreen) :
    (s.set_mode [mDECOM] false).original = s.original :=
  original_set_mode s [mDECOM] false (by decide)

@[simp] theorem original_set_mode_decawm (s : BScreen) :
    (s.set_mode [mDECAWM] false).original = s.original :=
  original_set_mode s [mDECAWM] false (by decide)

@[simp] theorem original_reset_mode_decom (s : BScreen) :
    (s.reset_mode [mDECOM] false).original = s.original :=
  original_reset_mode_noalt s [mDECOM] false (by decide)

@[simp] theorem original_restore_cursor (s : BScreen) :
    s.restore_cursor.original = s.original := by
  cases hsp : s.savepoints.getLast? with
  | none => simp [BScreen.restore_cursor, hsp]
  | some sp => simp [BScreen.restore_cursor, hsp, apply_ite BScreen.original]

theorem execOp_altCore (s0 : BScreen) (op : SOp) (t : BScreen)
    (hop : op.touchesAlt = false) (h : altCoreP s0 t) :
    altCoreP s0 (execOp t op) := by
  obtain ⟨b, hb, hrest⟩ := h
  cases op with
  | setMode ms priv =>
      have hmem : mALT ∉ (if priv then ms.map (· * 32) else ms) := by
        simp only [SOp.touchesAlt] at hop
        simpa using hop
      exact ⟨b, by rw [execOp, original_set_mode _ _ _ hmem]; exact hb, hrest⟩
  | resetMode ms priv =>
      have hmem : mALT ∉ (if priv then ms.map (· * 32) else ms) := by
        simp only [SOp.touchesAlt] at hop
        simpa using hop
      exact ⟨b, by rw [execOp, original_reset_mode_noalt _ _ _ hmem]; exact hb, hrest⟩
  | clearTabStop tt =>
      simp only [execOp, BScreen.clear_tab_stop]
      split_ifs with h0 h3
      · exact ⟨b, hb, hrest⟩
      · refine ⟨if b.tabstopsSnapshot.isNone
            then { b with tabstopsSnapshot := some t.tabstops } else b, ?_, ?_⟩
        · simp [hb]
        · split_ifs <;> simpa using hrest
      · exact ⟨b, hb, hrest⟩
  | draw cs => exact ⟨b, by simp [execOp, hb], hrest⟩
  | carriageReturn => exact ⟨b, by simp [execOp, hb], hrest⟩
  | linefeed => exact ⟨b, by simp [execOp, hb], hrest⟩
  | indexOp => exact ⟨b, by simp [execOp, hb], hrest⟩
  | reverseIndex => exact ⟨b, by simp [execOp, hb], hrest⟩
  | nextLine => exact ⟨b, by simp [execOp, hb], hrest⟩
  | tab => exact ⟨b, by simp [execOp, hb], hrest⟩
  | backspace => exact ⟨b, by simp [execOp, hb], hrest⟩
  | cursorUp n => exact ⟨b, by simp [execOp, hb], hrest⟩
  | cursorDown n => exact ⟨b, by simp [execOp, hb], hrest⟩
  | cursorBack n => exact ⟨b, by simp [execOp, hb], hrest⟩
  | cursorForward n => exact ⟨b, by simp [execOp, hb], hrest⟩
  | cursorPosition l c => exact ⟨b, by simp [execOp, hb], hrest⟩
  | cursorToColumn n => exact ⟨b, by simp [execOp, hb], hrest⟩
  | cursorToLine n => exact ⟨b, by simp [execOp, hb], hrest⟩
  | setMargins t' b' => exact ⟨b, by simp [execOp, hb], hrest⟩
  | setCharset c m => exact ⟨b, by simp [execOp, hb], hrest⟩
  | shiftIn => exact ⟨b, by simp [execOp, hb], hrest⟩
  | shiftOut => exact ⟨b, by simp [execOp, hb], hrest⟩
  | insertChars n => exact ⟨b, by simp [execOp, hb], hrest⟩
  | deleteChars n => exact ⟨b, by simp [execOp, hb], hrest⟩
  | eraseChars n => exact ⟨b, by simp [execOp, hb], hrest⟩
  | eraseInLine tt => exact ⟨b, by simp [execOp, hb], hrest⟩
  | eraseInDisplay tt => exact ⟨b, by simp [execOp, hb], hrest⟩
  | insertLines n => exact ⟨b, by simp [execOp, hb], hrest⟩
  | deleteLines n => exact ⟨b, by simp [execOp, hb], hrest⟩
  | setTabStop => exact ⟨b, by simp [execOp, hb], hrest⟩
  | saveCursor => exact ⟨b, by simp [execOp, hb], hrest⟩
  | restoreCursor => exact ⟨b, by simp [execOp, hb], hrest⟩
  | sgr attrs => exact ⟨b, by simp [execOp, hb], hrest⟩
  | squareClose data => exact ⟨b, by simp [execOp, hb], hrest⟩
  | reportDeviceStatus n => exact ⟨b, by simp [execOp, hb], hrest⟩
  | reportDeviceAttributes => exact ⟨b, by simp [execOp, hb], hrest⟩
  | bellOp => exact ⟨b, by simp [execOp, hb], hrest⟩
  | alignmentDisplay => exact ⟨b, by simp [execOp, hb], hrest⟩
  | clearHistory => exact ⟨b, by simp [execOp, hb], hrest⟩
  | resizeOp l c => exact ⟨b, by simp [execOp, hb], hrest⟩

theorem execOps_altCore (s0 : BScreen) (ops : List SOp) (t : BScreen)
    (hops : ∀ op ∈ ops, op.touchesAlt = false) (h : altCoreP s0 t) :
    altCoreP s0 (execOps t ops) := by
  induction ops generalizing t with
  | nil => exact h
  | cons o tl ih =>
      simp only [execOps, List.foldl_cons]
      exact ih (execOp t o)
        (fun op hop => hops op (by simp [hop]))
        (execOp_altCore s0 o t (hops o (by simp)) h)

/-- set_mode(1049, private=True) backs up exactly the pre-enter swap
variables (mode and tabstops staying aliased). -/
theorem set_mode_alt_enter (s : BScreen) :
    altCoreP s (s.set_mode [1049] true) :=
  ⟨{ margins := s.margins, charset := s.charset, g0 := s.g0, g1 := s.g1,
     dataBuffer := s.dataBuffer, cursorX := s.cursorX, cursorY := s.cursorY,
     showCursor := s.showCursor, maxY := s.maxY, tabstopsSnapshot := none },
   rfl, rfl, rfl, rfl, rfl, rfl, rfl, rfl, rfl, rfl⟩

/-- reset_mode(1049, private=True) with a backup present. -/
theorem reset_mode_alt_exit (s2 : BScreen) (b : AltBackup)
    (hb : s2.original = some b) :
    s2.reset_mode [1049] true =
      { s2 with
        mode := s2.mode \ {mALT}
        margins := none
        charset := b.charset
        g0 := b.g0
        g1 := b.g1
        tabstops := b.tabstopsSnapshot.getD s2.tabstops
        dataBuffer := b.dataBuffer
        cursorX := b.cursorX
        cursorY := b.cursorY
        showCursor := b.showCursor
        maxY := b.maxY
        original := none } := by
  simp only [BScreen.reset_mode]
  rw [if_pos (by decide), if_neg (by decide), if_neg (by decide),
      if_neg (by decide)]
  simp [hb]
  norm_num [mALT]

/-- C3 counterexample: entering the alternate screen, setting insert
mode (a plain set_mode(4)) inside it, and leaving it does not restore
the mode set: IRM persists after the reset because the backup holds a
reference to the live mode set and the in place update reaches it. -/
theorem alt_screen_counterexample :
    mIRM ∈ ((((mkScreen 4 10).set_mode [1049] true).set_mode
      [4] false).reset_mode [1049] true).mode ∧
    mIRM ∉ (mkScreen 4 10).mode := by
  constructor
  · decide
  · decide

/-- C3 amended: after set_mode(1049, private) followed by any sequence
of screen operations that does not itself set or reset the shifted
1049 code, and then reset_mode(1049, private): the swap variables
charset, g0_charset, g1_charset, data_buffer, cursor position and
max_y (plus show_cursor, carried by the swapped pt screen) equal their
pre-enter values; margins is None (the restore is followed by the
margin reset); but mode equals the mode as mutated during the
alternate screen with only the 1049 flag removed, and tabstops equals
its mutated value (or the value snapshotted by a clear-all-tab-stops
inside), because the backup aliases those two live set objects rather
than copying them. -/
theorem alt_screen_restore (s : BScreen) (ops : List SOp)
    (hops : ∀ op ∈ ops, op.touchesAlt = false) :
    ((execOps (s.set_mode [1049] true) ops).reset_mode [1049] true).charset = s.charset ∧
    ((execOps (s.set_mode [1049] true) ops).reset_mode [1049] true).g0 = s.g0 ∧
    ((execOps (s.set_mode [1049] true) ops).reset_mode [1049] true).g1 = s.g1 ∧
    ((execOps (s.set_mode [1049] true) ops).reset_mode [1049] true).dataBuffer = s.dataBuffer ∧
    ((execOps (s.set_mode [1049] true) ops).reset_mode [1049] true).cursorX = s.cursorX ∧
    ((execOps (s.set_mode [1049] true) ops).reset_mode [1049] true).cursorY = s.cursorY ∧
    ((execOps (s.set_mode [1049] true) ops).reset_mode [1049] true).maxY = s.maxY ∧
    ((execOps (s.set_mode [1049] true) ops).reset_mode [1049] true).showCursor = s.showCursor ∧
    ((execOps (s.set_mode [1049] true) ops).reset_mode [1049] true).margins = none ∧
    ((execOps (s.set_mode [1049] true) ops).reset_mode [1049] true).mode
      = (execOps (s.set_mode [1049] true) ops).mode \ {mALT} ∧
    ((execOps (s.set_mode [1049] true) ops).reset_mode [1049] true).tabstops
      = restoredTabstops (execOps (s.set_mode [1049] true) ops) ∧
    ((execOps (s.set_mode [1049] true) ops).reset_mode [1049] true).original = none := by
  obtain ⟨b, hb, h1, h2, h3, h4, h5, h6, h7, h8, h9⟩ :=
    execOps_altCore s ops (s.set_mode [1049] true) hops (set_mode_alt_enter s)
  rw [reset_mode_alt_exit _ b hb]
  refine ⟨h2, h3, h4, h5, h6, h7, h9, h8, rfl, rfl, ?_, rfl⟩
  simp [restoredTabstops, hb]

theorem alt_screen_restore_witness :
    (∀ op ∈ [SOp.setMode [4] false, SOp.draw [65]], op.touchesAlt = false) ∧
    ((execOps ((mkScreen 4 10).set_mode [1049] true)
        [SOp.setMode [4] false, SOp.draw [65]]).reset_mode [1049] true).cursorX
      = (mkScreen 4 10).cursorX ∧
    ((execOps ((mkScreen 4 10).set_mode [1049] true)
        [SOp.setMode [4] false, SOp.draw [65]]).reset_mode [1049] true).dataBuffer
      = (mkScreen 4 10).dataBuffer := by
  have h := alt_screen_restore (mkScreen 4 10)
    [SOp.setMode [4] false, SOp.draw [65]] (by decide)
  exact ⟨by decide, h.2.2.2.2.1, h.2.2.2.1⟩

/- ----------------------------------------------------------------
   Claim C8: the move-window command.
   ---------------------------------------------------------------- -/

/-- C8: moving onto an index held by an existing window fails with a
user visible CommandException before the arrangement is touched; onto
a free index, the active window gets the new index and the window list
is re-sorted by index (same windows up to permutation, sorted, the
active window carrying the new index, nothing else changed). -/
theorem move_window_spec (arr : Arrangement) (i : Int) :
    ((∃ w ∈ arr.windows, w.index = i) →
        move_window_command arr i =
          Except.error (PyError.commandException "index in use")) ∧
    (∀ w, arr.get_active_window = some w →
      (∀ u ∈ arr.windows, u.index ≠ i) →
      ∃ arr', move_window_command arr i = Except.ok arr' ∧
        arr'.windows.Perm (arr.windows.map
          (fun u => if u.windowId == w.windowId then { u with index := i } else u)) ∧
        arr'.windows.Pairwise (fun a b => a.index ≤ b.index) ∧
        (∀ u ∈ arr'.windows, u.windowId = w.windowId → u.index = i) ∧
        arr'.activeWindowId = arr.activeWindowId ∧
        arr'.baseIndex = arr.baseIndex) := by
  constructor
  · rintro ⟨w, hw, hidx⟩
    have hsome : (arr.get_window_by_index i).isSome := by
      rw [Arrangement.get_window_by_index, List.find?_isSome]
      exact ⟨w, hw, by simp [hidx]⟩
    simp [move_window_command, hsome]
  · intro w hw hfree
    have hnone : arr.get_window_by_index i = none := by
      rw [Arrangement.get_window_by_index, List.find?_eq_none]
      intro u hu
      simp [hfree u hu]
    refine ⟨arr.move_window w.windowId i, ?_, ?_, ?_, ?_, rfl, rfl⟩
    · simp [move_window_command, hnone, hw]
    · exact List.mergeSort_perm _ _
    · have hs := @List.sorted_mergeSort Window
        (fun a b : Window => decide (a.index ≤ b.index))
        (fun a b c h1 h2 => by
          simp only [decide_eq_true_eq] at *
          omega)
        (fun a b => by
          simp only [Bool.or_eq_true, decide_eq_true_eq]
          omega)
        (arr.windows.map
          (fun u => if u.windowId == w.windowId then { u with index := i } else u))
      exact hs.imp (fun h => by simpa using h)
    · intro u hu huid
      have : u ∈ arr.windows.map
          (fun u => if u.windowId == w.windowId then { u with index := i } else u) :=
        (List.mergeSort_perm _ _).subset hu
      obtain ⟨v, _, hv⟩ := List.mem_map.mp this
      by_cases hc : v.windowId == w.windowId
      · rw [if_pos hc] at hv
        rw [← hv]
      · rw [if_neg hc] at hv
        subst hv
        exact absurd (by simp [huid]) hc

/-- Witness for C8 at a concrete arrangement with windows at indexes 0
and 1: moving to the occupied index 1 errors, moving to the free index
5 succeeds with a sorted result whose active window sits at 5. -/
theorem move_window_spec_witness :
    move_window_command arrFix 1 =
      Except.error (PyError.commandException "index in use") ∧
    ∃ arr', move_window_command arrFix 5 = Except.ok arr' ∧
      arr'.windows.Pairwise (fun a b => a.index ≤ b.index) ∧
      (∀ u ∈ arr'.windows, u.windowId = 1001 → u.index = 5) := by
  constructor
  · exact (move_window_spec arrFix 1).1
      ⟨{ freshWindow 1 with windowId := 1002 }, by decide, rfl⟩
  · have h := (move_window_spec arrFix 5).2
      { freshWindow 0 with windowId := 1001 } (by decide) (by decide)
    obtain ⟨arr', h1, _, h3, h4, _⟩ := h
    exact ⟨arr', h1, h3, h4⟩



/- ----------------------------------------------------------------
   Claim C5: structural invariants of add_pane / remove_pane.
   Multiset bookkeeping for the pane tree.
   ---------------------------------------------------------------- -/

theorem panesMSF_append (a b : Forest) :
    panesMSF (a.append b) = panesMSF a + panesMSF b := by
  induction a using Forest.recTail with
  | nil => simp [Forest.append, panesMSF]
  | cons w n tl ih => simp [Forest.append, panesMSF, ih, add_assoc]

mutual
theorem hasPane_iff_mem (pid : Nat) :
    ∀ n : RNode, n.hasPane pid = true ↔ pid ∈ n.panesMS
  | .pane i => by
      simp only [RNode.hasPane, RNode.panesMS, beq_iff_eq,
        Multiset.mem_singleton]
      exact eq_comm
  | .split v cs => by
      simp only [RNode.hasPane, RNode.panesMS]
      exact hasPaneF_iff_mem pid cs

theorem hasPaneF_iff_mem (pid : Nat) :
    ∀ cs : Forest, hasPaneF pid cs = true ↔ pid ∈ panesMSF cs
  | .nil => by simp [hasPaneF, panesMSF]
  | .cons w n tl => by
      simp [hasPaneF, panesMSF, hasPane_iff_mem pid n,
        hasPaneF_iff_mem pid tl]
end

/- The panes list of a split (splits-preorder order) holds the same
pane ids, with multiplicity, as the structural multiset. -/
theorem panesF_ms :
    ∀ cs : Forest,
      (↑(directPanes cs ++ panesF cs) : Multiset Nat) = panesMSF cs
  | .nil => by simp [directPanes, panesF, panesMSF]
  | .cons w (RNode.pane i) tl => by
      have ih := panesF_ms tl
      simp only [directPanes, panesF, panesMSF, RNode.panesMS]
      rw [List.cons_append, ← Multiset.cons_coe, ih]
      rw [Multiset.singleton_add]
  | .cons w (RNode.split v cs) tl => by
      have ih1 := panesF_ms cs
      have ih2 := panesF_ms tl
      simp only [directPanes, panesF, panesMSF, RNode.panesMS, RNode.panes]
      rw [← Multiset.coe_add] at ih1 ih2
      rw [← Multiset.coe_add, ← Multiset.coe_add]
      rw [← ih1, ← ih2]
      rw [← Multiset.coe_add]
      abel

theorem root_panes_ms (v : Bool) (cs : Forest) :
    (↑(RNode.split v cs).panes : Multiset Nat) = panesMSF cs := by
  simpa [RNode.panes, RNode.panesMS] using panesF_ms cs

theorem wfF_append (a b : Forest) (ha : wfF a = true) (hb : wfF b = true) :
    wfF (a.append b) = true := by
  induction a using Forest.recTail with
  | nil => simpa [Forest.append]
  | cons w n tl ih =>
      simp only [wfF, Bool.and_eq_true] at ha
      simp [Forest.append, wfF, ha.1, ih ha.2]

theorem insertAfterPane_ms (aid nid : Nat) (cs : Forest)
    (h : directlyContains aid cs = true) :
    panesMSF (insertAfterPane aid nid cs) = nid ::ₘ panesMSF cs := by
  induction cs using Forest.recTail with
  | nil => simp [directlyContains] at h
  | cons w n tl ih =>
      cases n with
      | pane i =>
          by_cases hi : (i == aid) = true
          · simp [insertAfterPane, hi, panesMSF, RNode.panesMS,
              Multiset.singleton_add, Multiset.cons_swap]
          · simp only [directlyContains, hi, Bool.false_or] at h
            simp [insertAfterPane, hi, panesMSF, RNode.panesMS, ih h,
              Multiset.singleton_add, Multiset.cons_swap]
      | split v cs' =>
          simp only [directlyContains] at h
          simp [insertAfterPane, panesMSF, ih h, Multiset.add_cons]

theorem insertAfterPane_wf (aid nid : Nat) (cs : Forest)
    (h : wfF cs = true) : wfF (insertAfterPane aid nid cs) = true := by
  induction cs using Forest.recTail with
  | nil => simpa [insertAfterPane]
  | cons w n tl ih =>
      simp only [wfF, Bool.and_eq_true] at h
      cases n with
      | pane i =>
          by_cases hi : (i == aid) = true
          · simp [insertAfterPane, hi, wfF, RNode.wfB, h.2]
          · simp [insertAfterPane, hi, wfF, RNode.wfB, ih h.2]
      | split v cs' =>
          simp [insertAfterPane, wfF, h.1, ih h.2]

theorem insertAfterPane_len (aid nid : Nat) (cs : Forest) :
    cs.length ≤ (insertAfterPane aid nid cs).length := by
  induction cs using Forest.recTail with
  | nil => simp [insertAfterPane]
  | cons w n tl ih =>
      cases n with
      | pane i =>
          by_cases hi : (i == aid) = true
          · simp [insertAfterPane, hi, Forest.length]
          · simp [insertAfterPane, hi, Forest.length]
            omega
      | split v cs' =>
          simp [insertAfterPane, Forest.length]
          omega

theorem wrapPane_ms (aid nid : Nat) (vs : Bool) (cs : Forest)
    (h : directlyContains aid cs = true) :
    panesMSF (wrapPane aid nid vs cs) = nid ::ₘ panesMSF cs := by
  induction cs using Forest.recTail with
  | nil => simp [directlyContains] at h
  | cons w n tl ih =>
      cases n with
      | pane i =>
          by_cases hi : (i == aid) = true
          · have : i = aid := by simpa using hi
            subst this
            simp [wrapPane, panesMSF, RNode.panesMS,
              Multiset.singleton_add, Multiset.cons_swap]
          · simp only [directlyContains, hi, Bool.false_or] at h
            simp [wrapPane, hi, panesMSF, RNode.panesMS, ih h,
              Multiset.singleton_add, Multiset.cons_swap]
      | split v cs' =>
          simp only [directlyContains] at h
          simp [wrapPane, panesMSF, ih h, Multiset.add_cons]

theorem wrapPane_wf (aid nid : Nat) (vs : Bool) (cs : Forest)
    (h : wfF cs = true) : wfF (wrapPane aid nid vs cs) = true := by
  induction cs using Forest.recTail with
  | nil => simpa [wrapPane]
  | cons w n tl ih =>
      simp only [wfF, Bool.and_eq_true] at h
      cases n with
      | pane i =>
          by_cases hi : (i == aid) = true
          · simp [wrapPane, hi, wfF, RNode.wfB, Forest.length, h.2]
          · simp [wrapPane, hi, wfF, RNode.wfB, ih h.2]
      | split v cs' =>
          simp [wrapPane, wfF, h.1, ih h.2]

theorem wrapPane_len (aid nid : Nat) (vs : Bool) (cs : Forest) :
    (wrapPane aid nid vs cs).length = cs.length := by
  induction cs using Forest.recTail with
  | nil => rfl
  | cons w n tl ih =>
      cases n with
      | pane i =>
          by_cases hi : (i == aid) = true
          · simp [wrapPane, hi, Forest.length]
          · simp [wrapPane, hi, Forest.length, ih]
      | split v cs' =>
          simp [wrapPane, Forest.length, ih]

theorem addInF_len (aid nid : Nat) (vs : Bool) (cs : Forest) :
    (addInF aid nid vs cs).length = cs.length := by
  induction cs using Forest.recTail with
  | nil => rfl
  | cons w n tl ih =>
      by_cases hn : n.hasPane aid = true
      · simp [addInF, hn, Forest.length]
      · simp [addInF, hn, Forest.length, ih]

mutual
theorem addInNode_ms (aid nid : Nat) (vs : Bool) :
    ∀ (v : Bool) (cs : Forest), hasPaneF aid cs = true →
      (addInNode aid nid vs (.split v cs)).panesMS = nid ::ₘ panesMSF cs
  | v, cs, h => by
      rw [addInNode]
      by_cases hd : directlyContains aid cs = true
      · rw [if_pos hd]
        by_cases hv : (v == vs) = true
        · rw [if_pos hv]
          simpa [RNode.panesMS] using insertAfterPane_ms aid nid cs hd
        · rw [if_neg hv]
          simpa [RNode.panesMS] using wrapPane_ms aid nid vs cs hd
      · rw [if_neg hd]
        simpa [RNode.panesMS] using
          addInF_ms aid nid vs cs h (by simpa using hd)

theorem addInF_ms (aid nid : Nat) (vs : Bool) :
    ∀ cs : Forest, hasPaneF aid cs = true →
      directlyContains aid cs = false →
      panesMSF (addInF aid nid vs cs) = nid ::ₘ panesMSF cs
  | .nil, h, _ => by simp [hasPaneF] at h
  | .cons w n tl, h, hd => by
      rw [addInF]
      by_cases hn : n.hasPane aid = true
      · rw [if_pos hn]
        cases n with
        | pane i =>
            exfalso
            have : (i == aid) = true := by simpa [RNode.hasPane] using hn
            simp [directlyContains, this] at hd
        | split v cs' =>
            have hin : hasPaneF aid cs' = true := by
              simpa [RNode.hasPane] using hn
            simp [panesMSF, RNode.panesMS, addInNode_ms aid nid vs v cs' hin,
              Multiset.cons_add]
      · rw [if_neg hn]
        have htl : hasPaneF aid tl = true := by
          rcases (by simpa [hasPaneF] using h : n.hasPane aid = true ∨
            hasPaneF aid tl = true) with h1 | h1
          · exact absurd h1 hn
          · exact h1
        have hdtl : directlyContains aid tl = false := by
          by_cases h2 : directlyContains aid tl = true
          · exfalso
            cases n with
            | pane i => simp [directlyContains, h2] at hd
            | split v cs' => simp [directlyContains, h2] at hd
          · simpa using h2
        simp [panesMSF, addInF_ms aid nid vs tl htl hdtl, Multiset.add_cons]
end

mutual
theorem addInNode_wfB (aid nid : Nat) (vs : Bool) :
    ∀ n : RNode, n.wfB = true → (addInNode aid nid vs n).wfB = true
  | .pane i, h => by simpa [addInNode] using h
  | .split v cs, h => by
      simp only [RNode.wfB, Bool.and_eq_true, decide_eq_true_eq] at h
      rw [addInNode]
      by_cases hd : directlyContains aid cs = true
      · rw [if_pos hd]
        by_cases hv : (v == vs) = true
        · rw [if_pos hv]
          have := insertAfterPane_len aid nid cs
          simp only [RNode.wfB, Bool.and_eq_true, decide_eq_true_eq]
          exact ⟨by omega, insertAfterPane_wf aid nid cs h.2⟩
        · rw [if_neg hv]
          simp only [RNode.wfB, Bool.and_eq_true, decide_eq_true_eq]
          exact ⟨by rw [wrapPane_len]; omega, wrapPane_wf aid nid vs cs h.2⟩
      · rw [if_neg hd]
        simp only [RNode.wfB, Bool.and_eq_true, decide_eq_true_eq]
        exact ⟨by rw [addInF_len]; omega, addInF_wf aid nid vs cs h.2⟩

theorem addInF_wf (aid nid : Nat) (vs : Bool) :
    ∀ cs : Forest, wfF cs = true → wfF (addInF aid nid vs cs) = true
  | .nil, h => h
  | .cons w n tl, h => by
      simp only [wfF, Bool.and_eq_true] at h
      rw [addInF]
      by_cases hn : n.hasPane aid = true
      · rw [if_pos hn]
        simp [wfF, addInNode_wfB aid nid vs n h.1, h.2]
      · rw [if_neg hn]
        simp [wfF, h.1, addInF_wf aid nid vs tl h.2]
end

theorem addInNode_rootWF (aid nid : Nat) (vs : Bool) (n : RNode)
    (h : rootWF n = true) : rootWF (addInNode aid nid vs n) = true := by
  cases n with
  | pane i => simp [rootWF] at h
  | split v cs =>
      simp only [rootWF] at h
      rw [addInNode]
      by_cases hd : directlyContains aid cs = true
      · rw [if_pos hd]
        by_cases hv : (v == vs) = true
        · rw [if_pos hv]
          simpa [rootWF] using insertAfterPane_wf aid nid cs h
        · rw [if_neg hv]
          simpa [rootWF] using wrapPane_wf aid nid vs cs h
      · rw [if_neg hd]
        simpa [rootWF] using addInF_wf aid nid vs cs h

theorem removePaneF_not_found (pid : Nat) (cs : Forest)
    (h : hasPaneF pid cs = false) : removePaneF pid cs = cs := by
  induction cs using Forest.recTail with
  | nil => rfl
  | cons w n tl ih =>
      simp only [hasPaneF, Bool.or_eq_false_iff] at h
      cases n with
      | pane i =>
          have hi : (i == pid) = false := by simpa [RNode.hasPane] using h.1
          simp [removePaneF, hi, ih h.2]
      | split v cs' =>
          have hi : hasPaneF pid cs' = false := by
            simpa [RNode.hasPane] using h.1
          simp [removePaneF, hi, ih h.2]

theorem removePaneF_ms (pid : Nat) :
    ∀ cs : Forest, hasPaneF pid cs = true →
      panesMSF (removePaneF pid cs) = (panesMSF cs).erase pid
  | .nil, h => by simp [hasPaneF] at h
  | .cons w (RNode.pane i) tl, h => by
      by_cases hi : (i == pid) = true
      · have : i = pid := by simpa using hi
        subst this
        simp [removePaneF, panesMSF, RNode.panesMS, Multiset.singleton_add]
      · have htl : hasPaneF pid tl = true := by
          simpa [hasPaneF, RNode.hasPane, hi] using h
        have hne : i ≠ pid := by simpa using hi
        rw [removePaneF, if_neg (by simpa using hi)]
        simp only [panesMSF, RNode.panesMS, Multiset.singleton_add]
        rw [removePaneF_ms pid tl htl, Multiset.erase_cons_tail]
        simpa using hne
  | .cons w (RNode.split v cs) tl, h => by
      by_cases hin : hasPaneF pid cs = true
      · have ih := removePaneF_ms pid cs hin
        have hmem : pid ∈ panesMSF cs := (hasPaneF_iff_mem pid cs).mp hin
        rw [removePaneF, if_pos hin]
        rcases hrem : removePaneF pid cs with _ | ⟨w1, n1, _ | ⟨w2, n2, tl2⟩⟩
        · rw [hrem] at ih
          simp only [panesMSF, RNode.panesMS] at ih ⊢
          rw [Multiset.erase_add_left_pos _ hmem, ← ih]
          simp
        · rw [hrem] at ih
          simp only [panesMSF, RNode.panesMS] at ih ⊢
          rw [Multiset.erase_add_left_pos _ hmem, ← ih]
          simp
        · rw [hrem] at ih
          simp only [panesMSF, RNode.panesMS] at ih ⊢
          rw [Multiset.erase_add_left_pos _ hmem, ← ih]
      · have htl : hasPaneF pid tl = true := by
          simpa [hasPaneF, RNode.hasPane, hin] using h
        have hmem : pid ∈ panesMSF tl := (hasPaneF_iff_mem pid tl).mp htl
        rw [removePaneF, if_neg hin]
        simp only [panesMSF, RNode.panesMS]
        rw [removePaneF_ms pid tl htl, Multiset.erase_add_right_pos _ hmem]

theorem removePaneF_wf (pid : Nat) :
    ∀ cs : Forest, wfF cs = true → wfF (removePaneF pid cs) = true
  | .nil, h => h
  | .cons w (RNode.pane i) tl, h => by
      simp only [wfF, Bool.and_eq_true] at h
      by_cases hi : (i == pid) = true
      · rw [removePaneF, if_pos hi]
        exact h.2
      · rw [removePaneF, if_neg (by simpa using (by simpa using hi : ¬ i = pid))]
        simp [wfF, RNode.wfB, removePaneF_wf pid tl h.2]
  | .cons w (RNode.split v cs) tl, h => by
      simp only [wfF, Bool.and_eq_true, RNode.wfB, decide_eq_true_eq] at h
      obtain ⟨⟨hlen, hwf⟩, htl⟩ := h
      by_cases hin : hasPaneF pid cs = true
      · have ih := removePaneF_wf pid cs hwf
        rw [removePaneF, if_pos hin]
        rcases hrem : removePaneF pid cs with _ | ⟨w1, n1, _ | ⟨w2, n2, tl2⟩⟩
        · simpa using htl
        · rw [hrem] at ih
          simp only [wfF, Bool.and_eq_true] at ih
          simp [wfF, ih.1, htl]
        · rw [hrem] at ih
          simp only [wfF, Bool.and_eq_true] at ih
          simp [wfF, RNode.wfB, Forest.length, htl]
          exact ⟨ih.1, ih.2.1, ih.2.2⟩
      · rw [removePaneF, if_neg hin]
        simp [wfF, RNode.wfB, hlen, hwf, removePaneF_wf pid tl htl]

theorem remove_root_wf (pid : Nat) (v : Bool) (cs : Forest)
    (h : wfF cs = true) : rootWF (removePaneNode pid (.split v cs)) = true := by
  rw [removePaneNode]
  simpa [rootWF] using removePaneF_wf pid cs h

theorem remove_root_ms (pid : Nat) (v : Bool) (cs : Forest)
    (h : hasPaneF pid cs = true) :
    (removePaneNode pid (.split v cs)).panesMS = (panesMSF cs).erase pid := by
  rw [removePaneNode]
  simpa [RNode.panesMS] using removePaneF_ms pid cs h

mutual
theorem wfB_allSplits :
    ∀ n : RNode, n.wfB = true → ∀ m ∈ n.allSplits, 2 ≤ m.childCount
  | .pane i, h => by simp [RNode.allSplits]
  | .split v cs, h => by
      simp only [RNode.wfB, Bool.and_eq_true, decide_eq_true_eq] at h
      intro m hm
      simp only [RNode.allSplits, List.mem_cons] at hm
      rcases hm with rfl | hm
      · simpa [RNode.childCount] using h.1
      · exact wfF_allSplits cs h.2 m hm

theorem wfF_allSplits :
    ∀ cs : Forest, wfF cs = true → ∀ m ∈ allSplitsF cs, 2 ≤ m.childCount
  | .nil, h => by simp [allSplitsF]
  | .cons w n tl, h => by
      simp only [wfF, Bool.and_eq_true] at h
      intro m hm
      simp only [allSplitsF, List.mem_append] at hm
      rcases hm with hm | hm
      · exact wfB_allSplits n h.1 m hm
      · exact wfF_allSplits tl h.2 m hm
end

theorem winv_root_split (w : Window) (h : WInv w) :
    ∃ v cs, w.root = RNode.split v cs ∧ wfF cs = true := by
  cases hr : w.root with
  | pane i =>
      exfalso
      have := h.rootwf
      rw [hr] at this
      simp [rootWF] at this
  | split v cs =>
      refine ⟨v, cs, rfl, ?_⟩
      have := h.rootwf
      rw [hr] at this
      simpa [rootWF] using this

theorem add_pane_inv (w : Window) (vs : Bool) (h : WInv w) :
    WInv (w.add_pane vs) := by
  obtain ⟨v, cs, hroot, hwfF⟩ := winv_root_split w h
  have hfreshcs : ∀ p ∈ panesMSF cs, p ≤ w.nextPaneId := by
    intro p hp
    exact h.fresh p (by rw [hroot]; simpa [RNode.panesMS] using hp)
  cases hact : w.activePane with
  | none =>
      have heq : w.add_pane vs =
          { w with
            root := RNode.split v
              (cs.append (.cons 1 (RNode.pane (w.nextPaneId + 1)) .nil))
            activePane := some (w.nextPaneId + 1)
            zoom := false
            nextPaneId := w.nextPaneId + 1 } := by
        simp [Window.add_pane, hact, hroot, Window.setActivePane]
      have hms : (RNode.split v
          (cs.append (.cons 1 (RNode.pane (w.nextPaneId + 1)) .nil))).panesMS
          = (w.nextPaneId + 1) ::ₘ panesMSF cs := by
        simp only [RNode.panesMS, panesMSF_append, panesMSF, add_zero]
        rw [← Multiset.singleton_add, add_comm]
      rw [heq]
      refine ⟨?_, ?_, ?_, ?_, ?_, ?_⟩
      · simpa [rootWF] using
          wfF_append cs _ hwfF (by simp [wfF, RNode.wfB])
      · show (RNode.split v _).panesMS.Nodup
        rw [hms]
        refine Multiset.nodup_cons.mpr ⟨?_, ?_⟩
        · intro hc
          have := hfreshcs _ hc
          omega
        · have := h.nodup
          rw [hroot] at this
          simpa [RNode.panesMS] using this
      · intro p hp
        show p ≤ w.nextPaneId + 1
        rw [hms] at hp
        rcases Multiset.mem_cons.mp hp with rfl | hp
        · omega
        · have := hfreshcs p hp
          omega
      · intro a ha
        have : w.nextPaneId + 1 = a := by simpa using ha
        subst this
        show w.nextPaneId + 1 ∈ (RNode.split v _).panesMS
        rw [hms]
        exact Multiset.mem_cons_self _ _
      · intro p a hp ha
        have hpw : p ≤ w.nextPaneId := h.prevLe p hp
        have : w.nextPaneId + 1 = a := by simpa using ha
        omega
      · intro p hp
        have := h.prevLe p hp
        show p ≤ w.nextPaneId + 1
        omega
  | some aid =>
      have haid : aid ∈ panesMSF cs := by
        have := h.activeMem aid hact
        rw [hroot] at this
        simpa [RNode.panesMS] using this
      have hhas : hasPaneF aid cs = true := (hasPaneF_iff_mem aid cs).mpr haid
      have haidle : aid ≤ w.nextPaneId := hfreshcs aid haid
      have heq : w.add_pane vs =
          { w with
            root := addInNode aid (w.nextPaneId + 1) vs (RNode.split v cs)
            activePane := some (w.nextPaneId + 1)
            prevActivePane := some aid
            zoom := false
            nextPaneId := w.nextPaneId + 1 } := by
        simp [Window.add_pane, hact, hroot, Window.setActivePane]
      have hms := addInNode_ms aid (w.nextPaneId + 1) vs v cs hhas
      rw [heq]
      refine ⟨?_, ?_, ?_, ?_, ?_, ?_⟩
      · exact addInNode_rootWF aid (w.nextPaneId + 1) vs _
          (by simpa [rootWF] using hwfF)
      · show (addInNode aid (w.nextPaneId + 1) vs
            (RNode.split v cs)).panesMS.Nodup
        rw [hms]
        refine Multiset.nodup_cons.mpr ⟨?_, ?_⟩
        · intro hc
          have := hfreshcs _ hc
          omega
        · have := h.nodup
          rw [hroot] at this
          simpa [RNode.panesMS] using this
      · intro p hp
        show p ≤ w.nextPaneId + 1
        rw [hms] at hp
        rcases Multiset.mem_cons.mp hp with rfl | hp
        · omega
        · have := hfreshcs p hp
          omega
      · intro a ha
        have : w.nextPaneId + 1 = a := by simpa using ha
        subst this
        show w.nextPaneId + 1 ∈ (addInNode aid (w.nextPaneId + 1) vs
            (RNode.split v cs)).panesMS
        rw [hms]
        exact Multiset.mem_cons_self _ _
      · intro p a hp ha
        have hpa : aid = p := by simpa using hp
        have haa : w.nextPaneId + 1 = a := by simpa using ha
        omega
      · intro p hp
        have : aid = p := by simpa using hp
        subst this
        show aid ≤ w.nextPaneId + 1
        omega

theorem remove_pane_eq_of_not_mem (w : Window) (pid : Nat)
    (h : pid ∉ w.root.panes) : w.remove_pane pid = w := by
  simp [Window.remove_pane, h]

theorem focus_next_one_eq (w : Window) (pid : Nat)
    (hact : w.activePane = some pid) (hlen0 : ¬ w.root.panes.length = 0) :
    w.focus_next 1 = w.setActivePane
      (w.root.panes.getD
        ((((w.root.panes.indexOf pid : Nat) : Int) + 1)
          % ((w.root.panes.length : Nat) : Int)).toNat 0) := by
  simp only [Window.focus_next, hact]
  rw [if_neg hlen0]

theorem remove_pane_inv (w : Window) (pid : Nat) (h : WInv w)
    (hne : (w.remove_pane pid).root.panes ≠ []) :
    WInv (w.remove_pane pid) := by
  obtain ⟨v, cs, hroot, hwfF⟩ := winv_root_split w h
  by_cases hmem : pid ∈ w.root.panes
  case neg =>
    rw [remove_pane_eq_of_not_mem w pid hmem]
    exact h
  case pos =>
  have hcoe : (↑(w.root.panes) : Multiset Nat) = panesMSF cs := by
    rw [hroot]
    exact root_panes_ms v cs
  have hmemMS : pid ∈ panesMSF cs := by
    rw [← hcoe]
    exact Multiset.mem_coe.mpr hmem
  have hhas : hasPaneF pid cs = true := (hasPaneF_iff_mem pid cs).mpr hmemMS
  have hnodMS : (panesMSF cs).Nodup := by
    have := h.nodup
    rw [hroot] at this
    simpa [RNode.panesMS] using this
  have hfreshcs : ∀ p ∈ panesMSF cs, p ≤ w.nextPaneId := by
    intro p hp
    exact h.fresh p (by rw [hroot]; simpa [RNode.panesMS] using hp)
  have hrootrm : rootWF (removePaneNode pid w.root) = true := by
    rw [hroot]
    exact remove_root_wf pid v cs hwfF
  have hmsrm : (removePaneNode pid w.root).panesMS = (panesMSF cs).erase pid := by
    rw [hroot]
    exact remove_root_ms pid v cs hhas
  by_cases hact : w.activePane = some pid
  case neg =>
    have heq : w.remove_pane pid = { w with root := removePaneNode pid w.root } := by
      simp only [Window.remove_pane]
      rw [if_pos hmem, if_neg hact]
    rw [heq]
    refine ⟨hrootrm, ?_, ?_, ?_, ?_, ?_⟩
    · show (removePaneNode pid w.root).panesMS.Nodup
      rw [hmsrm]
      exact hnodMS.erase pid
    · intro p hp
      show p ≤ w.nextPaneId
      rw [hmsrm] at hp
      exact hfreshcs p (Multiset.mem_of_mem_erase hp)
    · intro a ha
      have hane : a ≠ pid := by
        intro hc
        subst hc
        exact hact ha
      have : a ∈ w.root.panesMS := h.activeMem a ha
      rw [hroot] at this
      show a ∈ (removePaneNode pid w.root).panesMS
      rw [hmsrm]
      exact (Multiset.mem_erase_of_ne hane).mpr (by simpa [RNode.panesMS] using this)
    · exact h.prevNe
    · exact h.prevLe
  case pos =>
  have hpidle : pid ≤ w.nextPaneId := by
    apply hfreshcs
    exact hmemMS
  cases hpv : w.previousActivePane with
  | some q =>
      have hq : w.prevActivePane = some q ∧ q ∈ w.root.panes := by
        have hpv2 := hpv
        rw [Window.previousActivePane] at hpv2
        cases hp : w.prevActivePane with
        | none => rw [hp] at hpv2; simp at hpv2
        | some p =>
            rw [hp] at hpv2
            dsimp only at hpv2
            by_cases hin : p ∈ w.root.panes
            · rw [if_pos hin] at hpv2
              have : p = q := by simpa using hpv2
              subst this
              exact ⟨rfl, hin⟩
            · rw [if_neg hin] at hpv2
              simp at hpv2
      have hqne : q ≠ pid := h.prevNe q pid hq.1 hact
      have hqMS : q ∈ panesMSF cs := by
        rw [← hcoe]
        exact Multiset.mem_coe.mpr hq.2
      have heq : w.remove_pane pid =
          { w with
            root := removePaneNode pid w.root
            activePane := some q
            prevActivePane := some pid
            zoom := false } := by
        simp only [Window.remove_pane]
        rw [if_pos hmem, if_pos hact, hpv]
        simp only [Window.setActivePane, hact]
      rw [heq]
      refine ⟨hrootrm, ?_, ?_, ?_, ?_, ?_⟩
      · show (removePaneNode pid w.root).panesMS.Nodup
        rw [hmsrm]
        exact hnodMS.erase pid
      · intro p hp
        show p ≤ w.nextPaneId
        rw [hmsrm] at hp
        exact hfreshcs p (Multiset.mem_of_mem_erase hp)
      · intro a ha
        have : q = a := by simpa using ha
        subst this
        show q ∈ (removePaneNode pid w.root).panesMS
        rw [hmsrm]
        exact (Multiset.mem_erase_of_ne hqne).mpr hqMS
      · intro p a hp ha
        have h1 : pid = p := by simpa using hp
        have h2 : q = a := by simpa using ha
        subst h1
        subst h2
        exact fun hc => hqne hc.symm
      · intro p hp
        have : pid = p := by simpa using hp
        subst this
        exact hpidle
  | none =>
      have hlen0 : ¬ w.root.panes.length = 0 := by
        intro hc
        rw [List.length_eq_zero] at hc
        rw [hc] at hmem
        exact absurd hmem (List.not_mem_nil pid)
      have hidx : w.root.panes.indexOf pid < w.root.panes.length :=
        List.indexOf_lt_length.mpr hmem
      have hnodL : w.root.panes.Nodup := by
        have := hnodMS
        rw [← hcoe] at this
        exact Multiset.coe_nodup.mp this
      -- the window still holds a second pane: the erase is nonempty
      have herase_ne : (panesMSF cs).erase pid ≠ 0 := by
        intro hc
        apply hne
        have hr1 : (w.remove_pane pid).root = removePaneNode pid w.root := by
          simp only [Window.remove_pane]
          rw [if_pos hmem, if_pos hact, hpv]
          rw [focus_next_one_eq w pid hact hlen0]
          rfl
        have : (↑((w.remove_pane pid).root.panes) : Multiset Nat) = 0 := by
          rw [hr1, hroot]
          rw [removePaneNode]
          rw [root_panes_ms]
          rw [removePaneF_ms pid cs hhas]
          exact hc
        exact (Multiset.coe_eq_zero _).mp this
      have hlen2 : 2 ≤ w.root.panes.length := by
        have hcard : ((panesMSF cs).erase pid).card = (panesMSF cs).card - 1 :=
          Multiset.card_erase_of_mem hmemMS
        have hpos : 0 < ((panesMSF cs).erase pid).card :=
          Multiset.card_pos.mpr herase_ne
        have hlen : w.root.panes.length = (panesMSF cs).card := by
          rw [← hcoe]
          rfl
        omega
      -- the pane focus_next lands on
      set k : Nat := ((((w.root.panes.indexOf pid : Nat) : Int) + 1)
        % ((w.root.panes.length : Nat) : Int)).toNat with hk
      have hkmod : k = (w.root.panes.indexOf pid + 1) % w.root.panes.length := by
        rw [hk]
        rw [show ((w.root.panes.indexOf pid : Nat) : Int) + 1
          = (((w.root.panes.indexOf pid + 1 : Nat)) : Int) by push_cast; ring]
        rw [← Int.natCast_mod]
        exact Int.toNat_natCast _
      have hklt : k < w.root.panes.length := by
        rw [hkmod]
        exact Nat.mod_lt _ (by omega)
      have hkne : k ≠ w.root.panes.indexOf pid := by
        rw [hkmod]
        rcases Nat.lt_or_ge (w.root.panes.indexOf pid + 1) w.root.panes.length
          with hlt | hge
        · rw [Nat.mod_eq_of_lt hlt]
          omega
        · have hsame : w.root.panes.indexOf pid + 1 = w.root.panes.length := by
            omega
          rw [hsame, Nat.mod_self]
          omega
      have hgetD : w.root.panes.getD k 0 = w.root.panes[k] :=
        List.getD_eq_getElem _ _ hklt
      have hane : w.root.panes[k] ≠ pid := by
        intro hc
        have hpi : w.root.panes[w.root.panes.indexOf pid] = pid :=
          List.getElem_indexOf hidx
        have : k = w.root.panes.indexOf pid := by
          apply (List.Nodup.getElem_inj_iff hnodL).mp
          rw [hc, hpi]
        exact hkne this
      have haMem : w.root.panes[k] ∈ w.root.panes := List.getElem_mem _
      have haMS : w.root.panes[k] ∈ panesMSF cs := by
        rw [← hcoe]
        exact Multiset.mem_coe.mpr haMem
      have heq : w.remove_pane pid =
          { w with
            root := removePaneNode pid w.root
            activePane := some (w.root.panes[k])
            prevActivePane := some pid
            zoom := false } := by
        simp only [Window.remove_pane]
        rw [if_pos hmem, if_pos hact, hpv]
        rw [focus_next_one_eq w pid hact hlen0]
        simp only [Window.setActivePane, hact, ← hk, hgetD]
      rw [heq]
      refine ⟨hrootrm, ?_, ?_, ?_, ?_, ?_⟩
      · show (removePaneNode pid w.root).panesMS.Nodup
        rw [hmsrm]
        exact hnodMS.erase pid
      · intro p hp
        show p ≤ w.nextPaneId
        rw [hmsrm] at hp
        exact hfreshcs p (Multiset.mem_of_mem_erase hp)
      · intro a ha
        have : w.root.panes[k] = a := by simpa using ha
        subst this
        show w.root.panes[k] ∈ (removePaneNode pid w.root).panesMS
        rw [hmsrm]
        exact (Multiset.mem_erase_of_ne hane).mpr haMS
      · intro p a hp ha
        have h1 : pid = p := by simpa using hp
        have h2 : w.root.panes[k] = a := by simpa using ha
        subst h1
        subst h2
        exact fun hc => hane hc.symm
      · intro p hp
        have : pid = p := by simpa using hp
        subst this
        exact hpidle

theorem execWOps_inv (ops : List WOp) :
    ∀ w : Window, WInv w →
    (∀ k, 1 ≤ k → k ≤ ops.length →
      (execWOps w (ops.take k)).root.panes ≠ []) →
    ∀ k, k ≤ ops.length → WInv (execWOps w (ops.take k)) := by
  induction ops with
  | nil =>
      intro w hw _ k hk
      simp only [List.length_nil, Nat.le_zero] at hk
      subst hk
      simpa [execWOps, List.take] using hw
  | cons o tl ih =>
      intro w hw hne k hk
      cases k with
      | zero => simpa [execWOps, List.take] using hw
      | succ k2 =>
          have h1 : WInv (execWOp w o) := by
            cases o with
            | add vs => exact add_pane_inv w vs hw
            | remove pid =>
                apply remove_pane_inv w pid hw
                have := hne 1 (by omega) (by simp)
                simpa [execWOps, List.take_succ_cons, List.take, execWOp]
                  using this
          have hne2 : ∀ j, 1 ≤ j → j ≤ tl.length →
              (execWOps (execWOp w o) (tl.take j)).root.panes ≠ [] := by
            intro j hj1 hj2
            have := hne (j + 1) (by omega) (by simp; omega)
            simpa [List.take_succ_cons, execWOps, List.foldl_cons] using this
          have := ih (execWOp w o) h1 hne2 k2 (by simpa using hk)
          simpa [List.take_succ_cons, execWOps, List.foldl_cons] using this

theorem WInv_claim_props (w : Window) (h : WInv w)
    (hne : w.root.panes ≠ []) :
    w.root.panes.Nodup ∧
    (∀ n ∈ w.root.allSplits, n.childCount ≠ 0) ∧
    (∀ n ∈ properSplits w.root, n.childCount ≠ 1) ∧
    (∀ a, w.activePane = some a → a ∈ w.root.panes) := by
  obtain ⟨v, cs, hroot, hwfF⟩ := winv_root_split w h
  have hcoe : (↑(w.root.panes) : Multiset Nat) = panesMSF cs := by
    rw [hroot]
    exact root_panes_ms v cs
  refine ⟨?_, ?_, ?_, ?_⟩
  · apply Multiset.coe_nodup.mp
    rw [hcoe]
    have := h.nodup
    rw [hroot] at this
    simpa [RNode.panesMS] using this
  · intro n hn
    rw [hroot] at hn
    simp only [RNode.allSplits, List.mem_cons] at hn
    rcases hn with rfl | hn
    · cases hcs : cs with
      | nil =>
          exfalso
          apply hne
          rw [hroot, hcs]
          rfl
      | cons w2 n2 tl2 => simp [RNode.childCount, hcs, Forest.length]
    · have := wfF_allSplits cs hwfF n hn
      omega
  · intro n hn
    rw [hroot] at hn
    simp only [properSplits] at hn
    have := wfF_allSplits cs hwfF n hn
    omega
  · intro a ha
    have := h.activeMem a ha
    rw [hroot] at this
    have hms : a ∈ panesMSF cs := by simpa [RNode.panesMS] using this
    exact Multiset.mem_coe.mp (by rw [hcoe]; exact hms)

/-- C5 counterexample: adding two panes and then removing both leaves
the root split with zero children while the active pane is still pane
1001, which is no longer in the tree: invariant (b) fails for the root
split and invariant (d) fails for the active pane. -/
theorem pane_invariants_counterexample :
    (execWOps (freshWindow 0)
      [WOp.add false, WOp.add true, WOp.remove 1002,
        WOp.remove 1001]).root.childCount = 0 ∧
    (execWOps (freshWindow 0)
      [WOp.add false, WOp.add true, WOp.remove 1002,
        WOp.remove 1001]).activePane = some 1001 ∧
    (execWOps (freshWindow 0)
      [WOp.add false, WOp.add true, WOp.remove 1002,
        WOp.remove 1001]).root.panes = [] := by
  refine ⟨?_, ?_, ?_⟩ <;> decide

/-- C5 amended: for a sequence of add_pane / remove_pane operations on
a fresh window such that the window still holds at least one pane
after every step, after each step: (a) no pane id occurs in two split
slots (the panes listing is duplicate free); (b) no split in the tree
has 0 children; (c) no split other than the root has exactly 1 child;
(d) the active pane is reachable from the root.  Without the
never-emptied hypothesis the claim fails: removing the last pane
leaves an empty root split and a dangling active pane. -/
theorem pane_tree_invariants (ops : List WOp)
    (hne : ∀ k, 1 ≤ k → k ≤ ops.length →
      (execWOps (freshWindow 0) (ops.take k)).root.panes ≠ []) :
    ∀ k, 1 ≤ k → k ≤ ops.length →
      ((execWOps (freshWindow 0) (ops.take k)).root.panes.Nodup ∧
       (∀ n ∈ (execWOps (freshWindow 0) (ops.take k)).root.allSplits,
          n.childCount ≠ 0) ∧
       (∀ n ∈ properSplits (execWOps (freshWindow 0) (ops.take k)).root,
          n.childCount ≠ 1) ∧
       (∀ a, (execWOps (freshWindow 0) (ops.take k)).activePane = some a →
          a ∈ (execWOps (freshWindow 0) (ops.take k)).root.panes)) := by
  intro k h1 h2
  have hfresh : WInv (freshWindow 0) := by
    constructor
    · rfl
    · simp [freshWindow, RNode.panesMS, panesMSF]
    · intro p hp
      simp [freshWindow, RNode.panesMS, panesMSF] at hp
    · intro a ha
      simp [freshWindow] at ha
    · intro p a hp _
      simp [freshWindow] at hp
    · intro p hp
      simp [freshWindow] at hp
  exact WInv_claim_props _ (execWOps_inv ops (freshWindow 0) hfresh hne k h2)
    (hne k h1 h2)

theorem pane_tree_invariants_witness :
    (execWOps (freshWindow 0)
      ([WOp.add false, WOp.add true].take 2)).root.panes.Nodup ∧
    (∀ a, (execWOps (freshWindow 0)
        ([WOp.add false, WOp.add true].take 2)).activePane = some a →
      a ∈ (execWOps (freshWindow 0)
        ([WOp.add false, WOp.add true].take 2)).root.panes) := by
  have h := pane_tree_invariants [WOp.add false, WOp.add true]
    (fun k h1 h2 => by
      have h3 : k ≤ 2 := by simpa using h2
      interval_cases k <;> decide)
    2 (by decide) (by decide)
  exact ⟨h.1, h.2.2.2⟩
